import Mathlib

/-!
Verification of the docker-compose → ansible-role transformation script
(`scripts/dc_to_ansible.py`).

Python strings are modelled as lists of Unicode code points (`PyStr`); the
ASCII fragment of Python's `str.lower` and of the `re` constructs the script
uses is embedded faithfully (the script only ever manipulates ASCII
identifiers, markers and templating syntax).  File access goes through an
injected read function, matching the script's synchronous `Path.read_text`
reads; a read failure is a Python exception, modelled as `Except.error`.

The pydantic compose model (`dc.py`, generated from the compose
specification) is not part of the repository sources; the `Service`,
`Mount`, `PortSpec` and `Volume` shapes below are modelled from the spec's
data-model section and from how `dc_to_ansible.py` accesses their fields.
-/

namespace DC

/-- Python strings, as lists of Unicode code points. -/
abbrev PyStr := List Nat

/-- Code points of a Lean string literal, for concrete inputs. -/
def pyStr (s : String) : PyStr := s.data.map Char.toNat

/-- The code points matched by Python's regex class `[\s-]` on ASCII input:
whitespace (including the rarely-remembered `\x1c`–`\x1f` file separators,
which Python's `\s` does match) and the hyphen. -/
def wsOrHyphen (c : Nat) : Bool :=
  decide (c = 9 ∨ c = 10 ∨ c = 11 ∨ c = 12 ∨ c = 13 ∨ c = 28 ∨ c = 29 ∨
    c = 30 ∨ c = 31 ∨ c = 32 ∨ c = 45)

/-- ASCII fragment of Python's `str.lower`: fold `A`–`Z` (65–90) to
`a`–`z` (97–122), leave everything else unchanged. -/
def pyLower (c : Nat) : Nat := if 65 ≤ c ∧ c ≤ 90 then c + 32 else c

/-- `str.lower` over a whole string. -/
def lowerStr (s : PyStr) : PyStr := s.map pyLower

/-- `re.sub(r"[\s-]]", "_", s)`: the script's regex contains a literal `]`
after the character class, so a match is a whitespace-or-hyphen character
immediately followed by `]` (code 93); each non-overlapping match (both
characters) is replaced by a single `_` (code 95), scanning left to right. -/
def subWsBr : PyStr → PyStr
  | [] => []
  | [c] => [c]
  | c1 :: c2 :: rest =>
    if wsOrHyphen c1 && c2 == 93 then 95 :: subWsBr rest
    else c1 :: subWsBr (c2 :: rest)

/-- `normalize_key_and_name(name)`: `re.sub(r"[\s-]]", "_", name).lower()`. -/
def normalize_key_and_name (s : PyStr) : PyStr := lowerStr (subWsBr s)

/-- Whether the string contains an adjacent pair matching the script's
regex `[\s-]]`, i.e. a whitespace-or-hyphen immediately followed by `]`. -/
def hasBadPair : PyStr → Bool
  | [] => false
  | [_] => false
  | c1 :: c2 :: rest => (wsOrHyphen c1 && c2 == 93) || hasBadPair (c2 :: rest)

/-- The code points of Python's `string.printable` (the claim's "printable"
strings): ASCII 32–126 plus tab, newline, carriage return, vertical tab and
form feed. -/
def printableCh (c : Nat) : Bool :=
  decide ((32 ≤ c ∧ c ≤ 126) ∨ c = 9 ∨ c = 10 ∨ c = 13 ∨ c = 11 ∨ c = 12)

theorem pyLower_idem (c : Nat) : pyLower (pyLower c) = pyLower c := by
  unfold pyLower
  split_ifs <;> omega

theorem lowerStr_idem (s : PyStr) : lowerStr (lowerStr s) = lowerStr s := by
  induction s with
  | nil => rfl
  | cons c t ih =>
    simp only [lowerStr, List.map_cons, List.map_map] at ih ⊢
    exact List.cons_eq_cons.mpr ⟨pyLower_idem c, ih⟩

theorem wsOrHyphen_pyLower (c : Nat) : wsOrHyphen (pyLower c) = wsOrHyphen c := by
  unfold pyLower wsOrHyphen
  split_ifs with h
  · exact decide_eq_decide.mpr (by omega)
  · rfl

theorem pyLower_eq_93 (c : Nat) : (pyLower c == 93) = (c == 93) := by
  unfold pyLower
  split_ifs with h
  · simp only [beq_eq_decide]
    exact decide_eq_decide.mpr (by omega)
  · rfl

theorem hasBadPair_lowerStr (s : PyStr) : hasBadPair (lowerStr s) = hasBadPair s := by
  induction s with
  | nil => rfl
  | cons c t ih =>
    cases t with
    | nil => rfl
    | cons c2 rest =>
      simp only [lowerStr, List.map_cons] at ih ⊢
      simp only [hasBadPair, wsOrHyphen_pyLower, pyLower_eq_93, ih]

/-- Output of the regex substitution: the head of `subWsBr (b :: t)` is
either `b` itself or the replacement `_`. -/
theorem subWsBr_head (b : Nat) (t : PyStr) :
    ∃ t', subWsBr (b :: t) = b :: t' ∨ subWsBr (b :: t) = 95 :: t' := by
  cases t with
  | nil => exact ⟨[], Or.inl rfl⟩
  | cons c2 rest =>
    by_cases h : wsOrHyphen b && c2 == 93
    · exact ⟨subWsBr rest, Or.inr (by simp [subWsBr, h])⟩
    · exact ⟨subWsBr (c2 :: rest), Or.inl (by simp [subWsBr, h])⟩

/-- The substitution removes every match: its output has no remaining
`[\s-]]` pair. -/
theorem hasBadPair_subWsBr (s : PyStr) : hasBadPair (subWsBr s) = false := by
  generalize hn : s.length = n
  induction n using Nat.strong_induction_on generalizing s with
  | _ n ih =>
    match s, hn with
    | [], _ => rfl
    | [c], _ => rfl
    | c1 :: c2 :: rest, hn =>
      by_cases h : wsOrHyphen c1 && c2 == 93
      · have hr : hasBadPair (subWsBr rest) = false := by
          exact ih rest.length (by simp at hn; omega) rest rfl
        simp only [subWsBr, h, if_true]
        cases hh : subWsBr rest with
        | nil => rfl
        | cons d t =>
          rw [hh] at hr
          simp only [hasBadPair, hr, Bool.or_false]
          simp [wsOrHyphen]
      · have hr : hasBadPair (subWsBr (c2 :: rest)) = false := by
          exact ih (c2 :: rest).length (by simp at hn ⊢; omega) (c2 :: rest) rfl
        simp only [subWsBr, h, if_false, Bool.false_eq_true]
        obtain ⟨t', ht'⟩ := subWsBr_head c2 rest
        rcases ht' with ht' | ht'
        · rw [ht'] at hr ⊢
          simp only [hasBadPair, hr, Bool.or_false]
          simpa using h
        · rw [ht'] at hr ⊢
          simp only [hasBadPair, hr, Bool.or_false]
          simp

/-- On a string with no `[\s-]]` match, the substitution is the identity. -/
theorem subWsBr_of_no_bad (s : PyStr) (h : hasBadPair s = false) : subWsBr s = s := by
  generalize hn : s.length = n
  induction n using Nat.strong_induction_on generalizing s with
  | _ n ih =>
    match s, hn with
    | [], _ => rfl
    | [c], _ => rfl
    | c1 :: c2 :: rest, hn =>
      simp only [hasBadPair, Bool.or_eq_false_iff] at h
      simp only [subWsBr, h.1, Bool.false_eq_true, if_false]
      rw [ih (c2 :: rest).length (by simp at hn ⊢; omega) (c2 :: rest) h.2 rfl]

/-- C4: the key normalizer is idempotent on printable strings:
`normalize_key_and_name (normalize_key_and_name s) = normalize_key_and_name s`. -/
theorem normalize_key_and_name_idem (s : PyStr)
    (h : ∀ c ∈ s, printableCh c = true) :
    normalize_key_and_name (normalize_key_and_name s) = normalize_key_and_name s := by
  unfold normalize_key_and_name
  have h2 : hasBadPair (lowerStr (subWsBr s)) = false := by
    rw [hasBadPair_lowerStr, hasBadPair_subWsBr]
  rw [subWsBr_of_no_bad _ h2, lowerStr_idem]

/-- Witness for C4 at the concrete printable string `"My - Role]x"`. -/
theorem normalize_key_and_name_idem_witness :
    (∀ c ∈ pyStr "My - Role]x", printableCh c = true) ∧
      normalize_key_and_name (normalize_key_and_name (pyStr "My - Role]x")) =
        normalize_key_and_name (pyStr "My - Role]x") :=
  ⟨by decide, normalize_key_and_name_idem (pyStr "My - Role]x") (by decide)⟩

/-- C5: evaluation of the normalizer at the claim's own example input.  The
script's regex is `[\s-]]` — a character class followed by a literal `]` —
so a bare hyphen is never replaced: `normalize_key_and_name "my-role"`
returns `"my-role"`, not the claimed `"my_role"`. -/
theorem normalize_key_and_name_my_role :
    normalize_key_and_name (pyStr "my-role") = pyStr "my-role" ∧
      normalize_key_and_name (pyStr "my-role") ≠ pyStr "my_role" := by
  constructor
  · decide
  · decide

/-! ### Secret classifier (`is_secret`) -/

/-- The fixed pattern words of `is_secret`'s regex
`(password|secret|token|api_key|db_pass|secret_key)$`. -/
def secretWords : List PyStr :=
  [pyStr "password", pyStr "secret", pyStr "token", pyStr "api_key",
   pyStr "db_pass", pyStr "secret_key"]

/-- The positions where Python's `$` matches in default (non-MULTILINE)
mode: the end of the string, and just before a newline that ends the
string. -/
def dollarPos (key : PyStr) (j : Nat) : Bool :=
  j == key.length || (j + 1 == key.length && key.getLast? == some 10)

/-- `re.search(r"(w₁|...|wₙ)$", key, re.IGNORECASE)` for literal words:
try every start position, at each one try every alternative
case-insensitively, and require the match to end at a `$` position. -/
def reSearchAltDollar (words : List PyStr) (key : PyStr) : Bool :=
  (List.range (key.length + 1)).any fun i =>
    words.any fun w =>
      lowerStr ((key.drop i).take w.length) == lowerStr w &&
        dollarPos key (i + w.length)

/-- Unanchored search for a literal pattern: `re.search(pat, s)` succeeds
iff `pat` occurs starting at some position of `s`. -/
def strContains (s pat : PyStr) : Bool :=
  (List.range (s.length + 1)).any fun i => pat.isPrefixOf (s.drop i)

/-- `is_secret(service_name, key, value, secret_seqs)`.  The fixed pattern
set is matched with `re.IGNORECASE`; the caller-supplied extra patterns are
modelled as literal strings, joined with `|` and searched unanchored and
case-sensitively (`re.search` without flags), exactly as the script builds
the second regex.  An empty/absent `secret_seqs` is falsy and skips the
second branch. -/
def is_secret (service_name key value : PyStr) (secret_seqs : List PyStr) : Bool :=
  if reSearchAltDollar secretWords key then true
  else if decide (secret_seqs ≠ []) && secret_seqs.any (fun p => strContains key p) then true
  else false

/-- Spec-side reading of "`key` ends, case-insensitively, in `w`". -/
def endsWithCI (key w : PyStr) : Bool := (lowerStr w).isSuffixOf (lowerStr key)

theorem pyLower_eq_10 {c : Nat} (h : pyLower c = 10) : c = 10 := by
  unfold pyLower at h
  split_ifs at h <;> omega

theorem drop_length_sub_one {l : PyStr} {c : Nat} (h : l.getLast? = some c) :
    l.drop (l.length - 1) = [c] := by
  induction l with
  | nil => simp at h
  | cons a t ih =>
    cases t with
    | nil => simp_all
    | cons b u =>
      have hlast : (b :: u).getLast? = some c := by
        rwa [List.getLast?_cons_cons] at h
      have := ih hlast
      simpa [List.length_cons, Nat.add_sub_cancel, List.drop_succ_cons] using this

/-- Resolving the `$`-anchored positional search for one word: it succeeds
exactly when the lowered word (or the lowered word followed by a newline)
is a suffix of the lowered key. -/
theorem match_positions_iff (w key : PyStr) :
    ((List.range (key.length + 1)).any fun i =>
        lowerStr ((key.drop i).take w.length) == lowerStr w &&
          dollarPos key (i + w.length)) = true ↔
      ((lowerStr w).isSuffixOf (lowerStr key) = true ∨
        ((lowerStr w) ++ [10]).isSuffixOf (lowerStr key) = true) := by
  have hlen : (lowerStr key).length = key.length := by simp [lowerStr]
  have hwlen : (lowerStr w).length = w.length := by simp [lowerStr]
  simp only [List.any_eq_true, List.mem_range, Bool.and_eq_true, beq_iff_eq,
    List.isSuffixOf_iff_suffix, dollarPos, Bool.or_eq_true]
  constructor
  · rintro ⟨i, hi, hmatch, hdollar⟩
    rcases hdollar with h1 | ⟨h2, h3⟩
    · left
      have h1' : i + w.length = key.length := by exact_mod_cast h1
      have hdl : (key.drop i).length = w.length := by
        simp [List.length_drop]; omega
      have : lowerStr (key.drop i) = lowerStr w := by
        rwa [List.take_of_length_le (le_of_eq hdl)] at hmatch
      have hsubst : (lowerStr key).drop i = lowerStr w := by
        rw [lowerStr, ← List.map_drop]; exact this
      rw [← hsubst]
      exact List.drop_suffix i (lowerStr key)
    · right
      have h2' : i + w.length + 1 = key.length := by exact_mod_cast h2
      have h3' : key.getLast? = some 10 := by
        simpa using h3
      have hLlast : (lowerStr key).getLast? = some 10 := by
        rw [lowerStr, List.getLast?_map, h3']
        rfl
      have hdecomp : (lowerStr key).drop i = lowerStr w ++ [10] := by
        have e1 : (lowerStr key).drop i =
            ((lowerStr key).drop i).take w.length ++ ((lowerStr key).drop i).drop w.length :=
          (List.take_append_drop _ _).symm
        have e2 : ((lowerStr key).drop i).take w.length = lowerStr w := by
          rw [lowerStr, ← List.map_drop, ← List.map_take]
          exact hmatch
        have e3 : ((lowerStr key).drop i).drop w.length = [10] := by
          rw [List.drop_drop]
          have heq : i + w.length = (lowerStr key).length - 1 := by
            rw [hlen]; omega
          rw [heq]
          exact drop_length_sub_one hLlast
        rw [e1, e2, e3]
      rw [← hdecomp]
      exact List.drop_suffix i (lowerStr key)
  · rintro (h | h)
    · obtain ⟨t, ht⟩ := h
      have hl : t.length + w.length = key.length := by
        have := congrArg List.length ht
        simp [hwlen, hlen] at this
        omega
      refine ⟨t.length, by omega, ?_, Or.inl (by exact_mod_cast hl)⟩
      have hdt : (lowerStr key).drop t.length = lowerStr w := by
        rw [← ht, List.drop_left]
      have hcomm : lowerStr ((key.drop t.length).take w.length) =
          ((lowerStr key).drop t.length).take w.length := by
        simp [lowerStr, List.map_take, List.map_drop]
      rw [hcomm, hdt, List.take_of_length_le (le_of_eq hwlen)]
    · obtain ⟨t, ht⟩ := h
      have hl : t.length + w.length + 1 = key.length := by
        have := congrArg List.length ht
        simp [hwlen, hlen] at this
        omega
      have hdrop : (lowerStr key).drop t.length = lowerStr w ++ [10] := by
        rw [← ht, List.drop_left]
      have hlast : key.getLast? = some 10 := by
        have : (lowerStr key).getLast? = some 10 := by
          rw [← ht, ← List.append_assoc, List.getLast?_concat]
        rw [lowerStr, List.getLast?_map] at this
        cases hk : key.getLast? with
        | none => rw [hk] at this; simp at this
        | some c =>
          rw [hk] at this
          simp only [Option.map_some'] at this
          have := pyLower_eq_10 (Option.some.inj this)
          rw [this]
      refine ⟨t.length, by omega, ?_, Or.inr ⟨by exact_mod_cast hl, by simp [hlast]⟩⟩
      have hcomm : lowerStr ((key.drop t.length).take w.length) =
          ((lowerStr key).drop t.length).take w.length := by
        simp [lowerStr, List.map_take, List.map_drop]
      rw [hcomm, hdrop, List.take_left' hwlen]

theorem endsWithCI_newline (key w : PyStr) :
    endsWithCI key (w ++ [10]) = (lowerStr w ++ [10]).isSuffixOf (lowerStr key) := by
  unfold endsWithCI
  have h10 : lowerStr (w ++ [10]) = lowerStr w ++ [10] := by
    simp [lowerStr, pyLower]
  rw [h10]

/-- The `$`-anchored case-insensitive alternation search succeeds exactly
when some word — or some word followed by a single newline — is a
case-insensitive suffix of the key. -/
theorem reSearchAltDollar_iff (words : List PyStr) (key : PyStr) :
    reSearchAltDollar words key = true ↔
      ∃ w ∈ words, endsWithCI key w = true ∨ endsWithCI key (w ++ [10]) = true := by
  unfold reSearchAltDollar
  constructor
  · intro h
    simp only [List.any_eq_true] at h
    obtain ⟨i, hi, w, hw, hcond⟩ := h
    refine ⟨w, hw, ?_⟩
    have hm := (match_positions_iff w key).mp
      (by simp only [List.any_eq_true]; exact ⟨i, hi, hcond⟩)
    rcases hm with hsuf | hsuf
    · exact Or.inl hsuf
    · right
      rw [endsWithCI_newline]
      exact hsuf
  · rintro ⟨w, hw, hcase⟩
    have hlhs := (match_positions_iff w key).mpr (by
      rcases hcase with h | h
      · exact Or.inl h
      · right
        rwa [endsWithCI_newline] at h)
    simp only [List.any_eq_true] at hlhs ⊢
    obtain ⟨i, hi, hcond⟩ := hlhs
    exact ⟨i, hi, w, hw, hcond⟩

/-- C3 (amended): the secret classifier returns true exactly when the key
ends case-insensitively in one of the six fixed suffixes *or in such a
suffix followed by a single trailing newline* (Python's `$` also matches
before a final newline); failing that, exactly when extra patterns were
supplied and one of them matches the key unanchored; otherwise false — for
every service name and value. -/
theorem is_secret_characterization (service_name key value : PyStr)
    (secret_seqs : List PyStr) :
    is_secret service_name key value secret_seqs = true ↔
      ((∃ w ∈ secretWords, endsWithCI key w = true ∨ endsWithCI key (w ++ [10]) = true) ∨
        (secret_seqs ≠ [] ∧ ∃ p ∈ secret_seqs, strContains key p = true)) := by
  unfold is_secret
  by_cases hr : reSearchAltDollar secretWords key = true
  · rw [if_pos hr]
    simp only [true_iff]
    exact Or.inl ((reSearchAltDollar_iff _ _).mp hr)
  · rw [if_neg hr]
    by_cases hs : (decide (secret_seqs ≠ []) &&
        secret_seqs.any fun p => strContains key p) = true
    · rw [if_pos hs]
      simp only [true_iff]
      right
      simpa only [Bool.and_eq_true, decide_eq_true_eq, List.any_eq_true] using hs
    · rw [if_neg hs]
      simp only [Bool.false_eq_true, false_iff]
      rintro (hsuf | hextra)
      · exact hr ((reSearchAltDollar_iff _ _).mpr hsuf)
      · exact hs (by
          simp only [Bool.and_eq_true, decide_eq_true_eq, List.any_eq_true]
          exact hextra)

/-- C3 counterexample: on the key `"password\n"` the classifier returns
true, although the key does not end (case-insensitively) in any of the six
fixed suffixes and no extra patterns are supplied — Python's `$` matched
just before the trailing newline. -/
theorem is_secret_trailing_newline_cex :
    is_secret (pyStr "svc") (pyStr "password\n") (pyStr "v") [] = true ∧
      (∀ w ∈ secretWords, endsWithCI (pyStr "password\n") w = false) := by
  refine ⟨by decide, by decide⟩

/-! ### String and container helpers shared by the pipeline -/

/-- `str(n)` for a natural number, as digit code points.  The fuel
argument (`n + 1`) always suffices, and keeps the definition structurally
recursive. -/
def natToStrCore : Nat → Nat → PyStr
  | 0, _ => []
  | fuel + 1, n =>
    if n < 10 then [48 + n] else natToStrCore fuel (n / 10) ++ [48 + n % 10]

/-- `str(n)`. -/
def natToStr (n : Nat) : PyStr := natToStrCore (n + 1) n

theorem natToStrCore_digits (fuel : Nat) :
    ∀ n, ∀ c ∈ natToStrCore fuel n, 48 ≤ c ∧ c ≤ 57 := by
  induction fuel with
  | zero => intro n c hc; simp [natToStrCore] at hc
  | succ f ih =>
    intro n c hc
    simp only [natToStrCore] at hc
    split at hc
    · simp only [List.mem_singleton] at hc
      omega
    · rcases List.mem_append.mp hc with h | h
      · exact ih _ c h
      · simp only [List.mem_singleton] at h
        have : n % 10 < 10 := Nat.mod_lt _ (by omega)
        omega

theorem natToStr_digits (n : Nat) : ∀ c ∈ natToStr n, 48 ≤ c ∧ c ≤ 57 :=
  natToStrCore_digits (n + 1) n

/-- Python `str.splitlines` restricted to `\n` separators (the only line
separator the script's inputs use): no trailing empty line is produced for
a final newline. -/
def splitlinesAux : PyStr → PyStr → List PyStr
  | [], acc => if acc = [] then [] else [acc.reverse]
  | c :: t, acc => if c = 10 then acc.reverse :: splitlinesAux t [] else splitlinesAux t (c :: acc)

/-- `content.splitlines()`. -/
def pySplitlines (s : PyStr) : List PyStr := splitlinesAux s []

/-- `s.split(sep)` for a single-character separator (all occurrences). -/
def pySplit (sep : Nat) : PyStr → List PyStr
  | [] => [[]]
  | c :: rest =>
    match pySplit sep rest with
    | [] => [[]]
    | h :: t => if c = sep then [] :: h :: t else (c :: h) :: t

/-- `sep.join(parts)` for a single-character separator. -/
def joinWith (sep : Nat) (parts : List PyStr) : PyStr :=
  (parts.intersperse [sep]).flatten

/-- `k, v = item.split("=", 1)`: raises `ValueError` when `item` contains
no `=` (code 61). -/
def splitEq1 (item : PyStr) : Except String (PyStr × PyStr) :=
  if 61 ∈ item then
    .ok (item.takeWhile (fun c => c != 61), (item.dropWhile (fun c => c != 61)).drop 1)
  else .error "ValueError"

/-- Insertion-ordered dictionary lookup, `d.get(k)`. -/
def lookupA {α : Type} (d : List (PyStr × α)) (k : PyStr) : Option α :=
  (d.find? fun kv => kv.1 == k).map fun kv => kv.2

/-- Python dict assignment `d[k] = v`: overwrite in place, else append. -/
def dictSet {α : Type} : List (PyStr × α) → PyStr → α → List (PyStr × α)
  | [], k, v => [(k, v)]
  | kv :: t, k, v => if kv.1 == k then (kv.1, v) :: t else kv :: dictSet t k v

/-- `defaultdict(list)` access-and-append: `d[k].append(v)`. -/
def appendAt {α : Type} : List (PyStr × List α) → PyStr → α → List (PyStr × List α)
  | [], k, v => [(k, [v])]
  | kv :: t, k, v => if kv.1 == k then (kv.1, kv.2 ++ [v]) :: t else kv :: appendAt t k v

/-- `env_to_dict(env_)`: fold `KEY=VALUE` items into a dict. -/
def env_to_dict (items : List PyStr) : Except String (List (PyStr × PyStr)) :=
  items.foldlM (fun e item => do
    let kv ← splitEq1 item
    pure (dictSet e kv.1 kv.2)) []

/-- The literal first-line marker `# deploy-docker-compose-template::type::env`
required of bind-mounted env-var source files. -/
def file_type_env : PyStr := pyStr "# deploy-docker-compose-template::type::env"

/-- The line selection of `env_from_file.iterate`: without
`compose_env_file` the loop `break`s unless the very first line starts with
the marker; blank lines and `#`-comment lines are skipped (`continue`). -/
def iterLines (lines : List PyStr) (compose_env_file : Bool) : List PyStr :=
  match lines with
  | [] => []
  | l0 :: rest =>
    if !compose_env_file && !(file_type_env.isPrefixOf l0) then []
    else (l0 :: rest).filter fun l => !(l == [] || (pyStr "#").isPrefixOf l)

/-- `env_from_file(p, compose_env_file)` with injected file reads:
`p.read_text()` on a missing file raises `FileNotFoundError`; a selected
line without `=` raises `ValueError` inside `env_to_dict`. -/
def env_from_file (fs : PyStr → Option PyStr) (p : PyStr)
    (compose_env_file : Bool) : Except String (List (PyStr × PyStr)) :=
  match fs p with
  | none => .error "FileNotFoundError"
  | some content => env_to_dict (iterLines (pySplitlines content) compose_env_file)

/-- Helper for `str.format`: consume a `{name}` replacement field,
returning the name and the rest after the closing brace (code 125). -/
def takeName : PyStr → PyStr × PyStr
  | [] => ([], [])
  | c :: rest =>
    if c = 125 then ([], rest)
    else ((c :: (takeName rest).1), (takeName rest).2)

/-- `str.format(**context)` for the named replacement fields used by the
secret path template; fueled by the string length, which always suffices. -/
def pyFormatCore : Nat → PyStr → List (PyStr × PyStr) → PyStr
  | 0, _, _ => []
  | fuel + 1, s, context =>
    match s with
    | [] => []
    | 123 :: 123 :: rest => 123 :: pyFormatCore fuel rest context
    | 125 :: 125 :: rest => 125 :: pyFormatCore fuel rest context
    | 123 :: rest =>
      ((lookupA context (takeName rest).1).getD []) ++
        pyFormatCore fuel (takeName rest).2 context
    | c :: rest => c :: pyFormatCore fuel rest context

/-- `template.format(**context)`. -/
def pyFormat (s : PyStr) (context : List (PyStr × PyStr)) : PyStr :=
  pyFormatCore s.length s context

/-- `s.replace(old, new)` (all non-overlapping occurrences, left to
right), fueled by the string length. -/
def pyReplaceCore : Nat → PyStr → PyStr → PyStr → PyStr
  | 0, s, _, _ => s
  | fuel + 1, s, old, new =>
    match s with
    | [] => []
    | c :: rest =>
      if decide (old ≠ []) && old.isPrefixOf (c :: rest) then
        new ++ pyReplaceCore fuel ((c :: rest).drop old.length) old new
      else c :: pyReplaceCore fuel rest old new

/-- `s.replace(old, new)`. -/
def pyReplace (s old new : PyStr) : PyStr := pyReplaceCore s.length s old new

/-- A decimal digit code point. -/
def isDigitCh (c : Nat) : Bool := decide (48 ≤ c ∧ c ≤ 57)

/-- `re.sub(r"\d+", repl, s)`: replace every maximal digit run. -/
def replaceDigitsCore : Nat → PyStr → PyStr → PyStr
  | 0, s, _ => s
  | fuel + 1, s, repl =>
    match s with
    | [] => []
    | c :: rest =>
      if isDigitCh c then repl ++ replaceDigitsCore fuel (rest.dropWhile isDigitCh) repl
      else c :: replaceDigitsCore fuel rest repl

/-- `re.sub(r"\d+", repl, s)`. -/
def replaceDigitRuns (s repl : PyStr) : PyStr := replaceDigitsCore s.length s repl

/-- `re.sub(r"^\d+", new_key, port_line)`: `patch_port` replaces only a
leading digit run. -/
def patch_port (port_line : PyStr) (new_key : PyStr) : PyStr :=
  match port_line with
  | [] => []
  | c :: _ => if isDigitCh c then new_key ++ port_line.dropWhile isDigitCh else port_line

/-- `patch_image_tag(image, new_tag)`:
`":".join((*image.split(":")[:-1], new_tag))`. -/
def patch_image_tag (image : PyStr) (new_tag : PyStr) : PyStr :=
  joinWith 58 ((pySplit 58 image).dropLast ++ [new_tag])

/-! ### Data model -/

/-- Python values stored in a default-variable record: env values are
strings, port defaults are ints, the releases aggregate is a dict.
`pyLen` is `len(value)`, only ever reached on strings in the script. -/
inductive Value where
  | str (s : PyStr)
  | int (n : Nat)
  | dict (entries : List (PyStr × PyStr))
deriving DecidableEq

/-- `len(value)` as used by `get_secret_expr` (the script only classifies
string-valued env vars as secret, so only `.str` is ever reached). -/
def pyLen : Value → Nat
  | .str s => s.length
  | .int _ => 0
  | .dict d => d.length

/-- One entry of `bootstrap_data["defaults"]`.  `add_to_defaults` always
sets `original_key`; the aggregate releases record is built without it,
hence the `Option`.  Likewise `secret_path`/`secret_expr` exist only on
secret records and `env_file` only when provenance was given. -/
structure DefaultRecord where
  key : PyStr
  original_key : Option PyStr
  value : Value
  is_secret : Bool
  service : PyStr
  secret_path : Option PyStr
  secret_expr : Option PyStr
  env_file : Option PyStr
deriving DecidableEq

/-- One entry of `images_tags`: `{"service": name, "tag": tag, "kind"?: db}`. -/
structure ImageTag where
  service : PyStr
  tag : PyStr
  kind : Option PyStr
deriving DecidableEq

/-- The configuration surface of `main` after option processing;
`defaults_prefix` is already `_`-terminated (`main` appends `_` when
missing).  `file_parent` is the directory of the compose file, used to
resolve relative paths. -/
structure Ctx where
  defaults_prefix : PyStr
  role_name : PyStr
  min_secret_length : Nat
  secret_string_template : PyStr
  proxy_container : Option PyStr
  ext_proxy_net : PyStr
  uid : Option Nat
  file_parent : PyStr
deriving DecidableEq

/-- The configured defaults prefix of a context. -/
def pfx (ctx : Ctx) : PyStr := Ctx.defaults_prefix ctx

/-- The mutable accumulation state of `main`: the defaults list, the
seen-key map `services_by_env`, and the auxiliary maps fed into the output
document. -/
structure BState where
  defaults : List DefaultRecord
  services_by_env : List (PyStr × List PyStr)
  env_files : List (PyStr × PyStr)
  backup_paths : List PyStr
  exposed_ports_by_service : List (PyStr × List Nat)
  volume_defaults : List (PyStr × PyStr)
  images_tags : List (PyStr × ImageTag)
deriving DecidableEq

/-- The initial bootstrap state. -/
def BState.empty : BState := ⟨[], [], [], [], [], [], []⟩

/-! ### Variable naming -/

/-- `bootstrap_data["role_name"] = normalize_key_and_name(role_name)`. -/
def roleNameNorm (ctx : Ctx) : PyStr := normalize_key_and_name (Ctx.role_name ctx)

/-- `variable_from_env(key) = f"{defaults_prefix}{normalize_key_and_name(key)}"`. -/
def variable_from_env (ctx : Ctx) (key : PyStr) : PyStr :=
  pfx ctx ++ normalize_key_and_name key

/-- `variable_from_port(service_name, exposed_port, add_prefix)`. -/
def variable_from_port (ctx : Ctx) (service_name : PyStr) (exposed_port : Nat)
    ( add_prefix : Bool) : PyStr :=
  (if add_prefix then pfx ctx else []) ++ pyStr "host_port_" ++ service_name ++
    [95] ++ natToStr exposed_port

/-- `releases_key = normalize_key_and_name("releases")`. -/
def releases_key : PyStr := normalize_key_and_name (pyStr "releases")

/-- `file_name_id(path)`: the basename split at `.`, joined by `_`, then
normalized. -/
def file_name_id (path : PyStr) : PyStr :=
  normalize_key_and_name (joinWith 95 (pySplit 46 ((pySplit 47 path).getLastD [])))

/-- `get_secret_path(svc_name, key)`: the secret path template formatted
with the normalized role name, the service name and the env key. -/
def get_secret_path (ctx : Ctx) (svc_name key : PyStr) : PyStr :=
  pyFormat (Ctx.secret_string_template ctx)
    [(pyStr "role_name", roleNameNorm ctx), (pyStr "service_name", svc_name),
     (pyStr "env_key", key)]

/-- `get_secret_expr(item)`: the passwordstore lookup expression with
`length = max(len(item["value"]), min_secret_length)`. -/
def get_secret_expr (ctx : Ctx) (secret_path : PyStr) (value : Value) : PyStr :=
  pyStr "\x7b\x7b lookup(\x27community.general.passwordstore\x27, \x27" ++
    secret_path ++ pyStr " create=true length=" ++
    natToStr (max (pyLen value) (Ctx.min_secret_length ctx)) ++
    pyStr "\x27) \x7d\x7d"

/-! ### Variable registry -/

/-- `add_to_defaults(key, val, service_name, is_secret, env_file)`:
first-write-wins registration keyed on the raw source key through the
truthiness check `if services_by_env.get(key): return`. -/
def add_to_defaults (ctx : Ctx) (st : BState) (key : PyStr) (val : Value)
    (service_name : PyStr) ( is_secret : Bool) (env_file : Option PyStr) : BState :=
  if (lookupA st.services_by_env key).getD [] ≠ [] then st
  else
    let data : DefaultRecord :=
      { key := variable_from_env ctx key, original_key := some key, value := val,
        is_secret := is_secret, service := service_name,
        secret_path :=
          if is_secret then some (get_secret_path ctx service_name key) else none,
        secret_expr :=
          if is_secret then
            some (get_secret_expr ctx (get_secret_path ctx service_name key) val)
          else none,
        env_file := env_file }
    let st1 :=
      match env_file with
      | some ef => { st with env_files := dictSet st.env_files ef (file_name_id ef) }
      | none => st
    { st1 with defaults := st1.defaults ++ [data],
               services_by_env := appendAt st1.services_by_env key service_name }

theorem lookupA_cons {α : Type} (kv : PyStr × α) (t : List (PyStr × α)) (k : PyStr) :
    lookupA (kv :: t) k = if kv.1 == k then some kv.2 else lookupA t k := by
  by_cases h : kv.1 == k
  · simp [lookupA, List.find?_cons_of_pos, h]
  · simp [lookupA, List.find?_cons_of_neg, h]

theorem lookupA_appendAt_self {α : Type} (d : List (PyStr × List α)) (k : PyStr) (v : α) :
    lookupA (appendAt d k v) k = some ((lookupA d k).getD [] ++ [v]) := by
  induction d with
  | nil => simp [appendAt, lookupA]
  | cons kv t ih =>
    by_cases h : kv.1 == k
    · simp [appendAt, h, lookupA_cons]
    · simp only [appendAt, h, Bool.false_eq_true, if_false, lookupA_cons, ih]

theorem lookupA_appendAt_ne {α : Type} (d : List (PyStr × List α)) (k k' : PyStr) (v : α)
    (h : ¬(k' = k)) : lookupA (appendAt d k v) k' = lookupA d k' := by
  have hne : (k == k') = false := by
    simp only [beq_eq_false_iff_ne, ne_eq]
    exact fun e => h e.symm
  induction d with
  | nil => simp [appendAt, lookupA_cons, lookupA, hne]
  | cons kv t ih =>
    by_cases hkv : kv.1 == k
    · have : kv.1 = k := by simpa using hkv
      simp [appendAt, hkv, lookupA_cons, this, hne]
    · simp only [appendAt, hkv, Bool.false_eq_true, if_false, lookupA_cons, ih]

theorem add_to_defaults_of_unseen (ctx : Ctx) (st : BState) (k : PyStr) (val : Value)
    (sname : PyStr) (b : Bool) (ef : Option PyStr)
    (h : (lookupA st.services_by_env k).getD [] = []) :
    (add_to_defaults ctx st k val sname b ef).defaults =
        st.defaults ++ [⟨variable_from_env ctx k, some k, val, b, sname,
          if b then some (get_secret_path ctx sname k) else none,
          if b then some (get_secret_expr ctx (get_secret_path ctx sname k) val) else none,
          ef⟩] ∧
      (add_to_defaults ctx st k val sname b ef).services_by_env =
        appendAt st.services_by_env k sname ∧
      (add_to_defaults ctx st k val sname b ef).exposed_ports_by_service =
        st.exposed_ports_by_service ∧
      (add_to_defaults ctx st k val sname b ef).backup_paths = st.backup_paths ∧
      (add_to_defaults ctx st k val sname b ef).volume_defaults = st.volume_defaults ∧
      (add_to_defaults ctx st k val sname b ef).images_tags = st.images_tags := by
  unfold add_to_defaults
  rw [if_neg (by simp [h])]
  cases ef <;> simp

theorem add_to_defaults_of_seen (ctx : Ctx) (st : BState) (k : PyStr) (val : Value)
    (sname : PyStr) (b : Bool) (ef : Option PyStr)
    (h : (lookupA st.services_by_env k).getD [] ≠ []) :
    add_to_defaults ctx st k val sname b ef = st := by
  unfold add_to_defaults
  rw [if_pos h]

/-- C2: registering the same source key twice through `add_to_defaults`
(same or different service name, any second value) leaves exactly one
record for that key in the defaults list, and that record carries the
value (and service) of the first registration. -/
theorem add_to_defaults_first_write_wins (ctx : Ctx) (st : BState)
    (k : PyStr) (v1 v2 : Value) (s1 s2 : PyStr) (b1 b2 : Bool)
    (ef1 ef2 : Option PyStr)
    (hunseen : lookupA st.services_by_env k = none)
    (hnorec : st.defaults.filter (fun r => r.original_key == some k) = []) :
    ∃ r : DefaultRecord,
      ((add_to_defaults ctx (add_to_defaults ctx st k v1 s1 b1 ef1)
            k v2 s2 b2 ef2).defaults.filter
          (fun r => r.original_key == some k)) = [r] ∧
      r.value = v1 ∧ r.service = s1 ∧ r.key = variable_from_env ctx k := by
  obtain ⟨hd1, hs1, -, -, -, -⟩ :=
    add_to_defaults_of_unseen ctx st k v1 s1 b1 ef1 (by rw [hunseen]; rfl)
  have hseen2 :
      (lookupA (add_to_defaults ctx st k v1 s1 b1 ef1).services_by_env k).getD [] ≠ [] := by
    rw [hs1, lookupA_appendAt_self]
    simp
  rw [add_to_defaults_of_seen ctx _ k v2 s2 b2 ef2 hseen2, hd1,
    List.filter_append, hnorec]
  refine ⟨⟨variable_from_env ctx k, some k, v1, b1, s1,
    if b1 then some (get_secret_path ctx s1 k) else none,
    if b1 then some (get_secret_expr ctx (get_secret_path ctx s1 k) v1) else none,
    ef1⟩, ?_, rfl, rfl, rfl⟩
  simp [List.filter]

/-- A small concrete configuration for the concrete evaluations: prefix
`dc_`, role name `myrole`, the default secret path template, minimum
secret length 12, no proxy container, no uid override. -/
def ctx0 : Ctx :=
  { defaults_prefix := pyStr "dc_", role_name := pyStr "myrole",
    min_secret_length := 12,
    secret_string_template :=
      pyStr "services/\x7brole_name\x7d/\x7bservice_name\x7d/\x7benv_key\x7d",
    proxy_container := none, ext_proxy_net := pyStr "proxy-tier",
    uid := none, file_parent := pyStr "/work" }

/-- Witness for C2: two registrations of `DB_USER` (services `web` then
`db`, values `alpha` then `beta`) leave exactly one `DB_USER` record,
carrying `alpha` and `web`. -/
theorem add_to_defaults_first_write_wins_witness :
    lookupA BState.empty.services_by_env (pyStr "DB_USER") = none ∧
      BState.empty.defaults.filter
        (fun r => r.original_key == some (pyStr "DB_USER")) = [] ∧
      ∃ r : DefaultRecord,
        ((add_to_defaults ctx0 (add_to_defaults ctx0 BState.empty (pyStr "DB_USER")
              (Value.str (pyStr "alpha")) (pyStr "web") false none)
            (pyStr "DB_USER") (Value.str (pyStr "beta")) (pyStr "db")
            false none).defaults.filter
            (fun r => r.original_key == some (pyStr "DB_USER"))) = [r] ∧
        r.value = Value.str (pyStr "alpha") ∧ r.service = pyStr "web" ∧
        r.key = variable_from_env ctx0 (pyStr "DB_USER") :=
  ⟨by decide, by decide,
    add_to_defaults_first_write_wins ctx0 BState.empty (pyStr "DB_USER")
      (Value.str (pyStr "alpha")) (Value.str (pyStr "beta"))
      (pyStr "web") (pyStr "db") false false none none (by decide) (by decide)⟩

/-! ### Compose data model (pydantic `dc.py` is not under the sources) -/

/-- Modelled from the spec: a mount spec of the canonicalized model,
discriminated as `bind` (source = host path) or `volume` (source =
declared volume name). -/
structure Mount where
  type : PyStr
  source : PyStr
deriving DecidableEq

/-- Modelled from the spec: a named (non-bind) volume carrying a `name`
used to build a backup path. -/
structure Volume where
  name : PyStr
deriving DecidableEq

/-- Modelled from the spec: a port-publish spec; `published` is the
optional host port — unpublished ports are skipped. -/
structure PortSpec where
  published : Option Nat
deriving DecidableEq

/-- Modelled from the spec: a canonicalized service with its fully
resolved environment map, its mounts, ports and image string. -/
structure Service where
  environment : List (PyStr × PyStr)
  volumes : List Mount
  ports : List PortSpec
  image : PyStr
deriving DecidableEq

/-- Modelled from the spec: the canonicalized compose model. -/
structure ComposeModel where
  services : List (PyStr × Service)
  volumes : List (PyStr × Option Volume)
deriving DecidableEq

/-- A service's declared `env_file`: string or list form. -/
inductive EnvFileDecl where
  | one (p : PyStr)
  | many (ps : List PyStr)
deriving DecidableEq

/-- `[env_file] if isinstance(env_file, str) else env_file`. -/
def envFileList : EnvFileDecl → List PyStr
  | .one p => [p]
  | .many ps => ps

/-- Environment of the original (as-authored) descriptor: list form
(`KEY=VALUE` strings) or map form; an absent key reads as the empty map
(`data.get("environment", {})`). -/
inductive OgEnv where
  | list (items : List PyStr)
  | dict (m : List (PyStr × PyStr))
deriving DecidableEq

/-- A service of the original descriptor, the plain YAML mapping the
rewriter manipulates in place. -/
structure OgService where
  environment : OgEnv
  env_file : Option EnvFileDecl
  volumes : List PyStr
  ports : List PyStr
  image : PyStr
  user : Option PyStr
  networks : Option (List PyStr)
deriving DecidableEq

/-- The network declaration `handle_proxy_container` injects. -/
structure NetworkDef where
  name : PyStr
  external : Bool
deriving DecidableEq

/-- The original descriptor. -/
structure OgCompose where
  services : List (PyStr × OgService)
  networks : Option (List (PyStr × NetworkDef))
deriving DecidableEq

/-- Resolve a path against the compose file's directory as the script
does (absolute iff it starts with `/`). -/
def resolvePath (ctx : Ctx) (p : PyStr) : PyStr :=
  if (pyStr "/").isPrefixOf p then p else Ctx.file_parent ctx ++ pyStr "/" ++ p

/-! ### Service walker -/

/-- `handle_svc_env_file(name, path)`: scan a bind-mounted file for env
vars.  A missing file returns early (`if not p.is_file(): return`); a
parse failure is caught (`except Exception: logging.warning(...); return`);
otherwise every parsed key is classified and registered with the mount
path as provenance. -/
def handle_svc_env_file (ctx : Ctx) (fs : PyStr → Option PyStr) (name : PyStr)
    (path : PyStr) (st : BState) : BState :=
  match fs (resolvePath ctx path) with
  | none => st
  | some _ =>
    match env_from_file fs (resolvePath ctx path) false with
    | .error _ => st
    | .ok env =>
      env.foldl (fun acc kv =>
        add_to_defaults ctx acc kv.1 (Value.str kv.2) name
          (is_secret name kv.1 kv.2 []) (some path)) st

/-- The declared-env-file reading loop of `handle_svc_environment`: read
each file with `env_from_file(..., compose_env_file=True)` — *without* any
exception handler — and map every key found to the declaring file path
(`names_to_env_files.update(...)`). -/
def read_env_files (ctx : Ctx) (fs : PyStr → Option PyStr)
    (decl : Option EnvFileDecl) : Except String (List (PyStr × PyStr)) :=
  match decl with
  | none => pure []
  | some d =>
    (envFileList d).foldlM (fun acc fp => do
      let file_env_data ← env_from_file fs (resolvePath ctx fp) true
      pure (file_env_data.foldl (fun m kv => dictSet m kv.1 fp) acc)) []

/-- `handle_svc_environment(name, svc)`: return immediately when the
canonical environment is falsy; otherwise look the service up in the
original descriptor (`final["services"][name]`, `KeyError` when absent),
read each declared env-file — uncaught, so a missing or unparsable
declared env-file propagates as an error — then classify and register
every canonical env entry with its provenance. -/
def handle_svc_environment (ctx : Ctx) (fs : PyStr → Option PyStr)
    (og : OgCompose) (name : PyStr) (svc : Service) (st : BState) :
    Except String BState := do
  if svc.environment = [] then return st
  let ogsvc ← match lookupA og.services name with
    | some o => pure o
    | none => Except.error "KeyError"
  let names_to_env_files ← read_env_files ctx fs (OgService.env_file ogsvc)
  return svc.environment.foldl (fun acc kv =>
    add_to_defaults ctx acc kv.1 (Value.str kv.2) name
      (is_secret name kv.1 kv.2 []) (lookupA names_to_env_files kv.1)) st

/-- One iteration of the `handle_svc_ports` loop: skip unpublished ports;
otherwise record the host port under the service in the exposed-ports map
and register `host_port_<service>_<port>` (source key built without the
configured prefix: `add_prefix=False`) as a non-secret int default. -/
def handle_one_port (ctx : Ctx) (name : PyStr) (st : BState) (port : PortSpec) : BState :=
  match PortSpec.published port with
  | none => st
  | some host_port =>
    let exposed := appendAt st.exposed_ports_by_service name host_port
    let st1 := { st with exposed_ports_by_service := exposed }
    add_to_defaults ctx st1 (variable_from_port ctx name host_port false)
      (Value.int host_port) name false none

/-- `handle_svc_ports(name, data)` (an empty port list is falsy and
returns immediately, which coincides with folding over nothing). -/
def handle_svc_ports (ctx : Ctx) (name : PyStr) (svc : Service) (st : BState) : BState :=
  svc.ports.foldl (handle_one_port ctx name) st

/-- ASCII fragment of the regex class `[\w._]`. -/
def isWordCharDot (c : Nat) : Bool :=
  decide ((48 ≤ c ∧ c ≤ 57) ∨ (65 ≤ c ∧ c ≤ 90) ∨ (97 ≤ c ∧ c ≤ 122) ∨ c = 95 ∨ c = 46)

/-- `re.search(r"[\w._]+$", val)`: the maximal suffix of word-ish
characters (empty when there is no match). -/
def suffixWordChars (s : PyStr) : PyStr := (s.reverse.takeWhile isWordCharDot).reverse

/-- One iteration of the `handle_svc_volumes` loop: a `bind` mount appends
its source to the backup paths, is scanned as a candidate env file, and
produces a `volume_defaults` entry named from its trailing word
characters; a `volume` mount appends the fixed docker volumes path (a
missing or `None` declared volume raises); other mount types are ignored. -/
def handle_one_volume (ctx : Ctx) (fs : PyStr → Option PyStr) (name : PyStr)
    (volumes : List (PyStr × Option Volume)) (st : BState) (vol : Mount) :
    Except String BState :=
  if vol.type == pyStr "bind" then
    let val := vol.source
    let st1 := { st with backup_paths := st.backup_paths ++ [val] }
    let st2 := handle_svc_env_file ctx fs name val st1
    let m := suffixWordChars val
    let vol_id0 := if m = [] then pyStr "data" else m
    let vol_id := vol_id0.map (fun c => if c = 46 then 95 else c)
    let vdefs := dictSet st2.volume_defaults val (pfx ctx ++ vol_id ++ pyStr "_mount_dir")
    .ok { st2 with volume_defaults := vdefs }
  else if vol.type == pyStr "volume" then
    match lookupA volumes vol.source with
    | none => .error "KeyError"
    | some none => .error "AttributeError"
    | some (some v) =>
      let bpaths := st.backup_paths ++ [pyStr "/var/lib/docker/volumes/" ++ Volume.name v]
      .ok { st with backup_paths := bpaths }
  else .ok st

/-- `handle_svc_volumes(name, data, volumes)`. -/
def handle_svc_volumes (ctx : Ctx) (fs : PyStr → Option PyStr) (name : PyStr)
    (svc : Service) (volumes : List (PyStr × Option Volume)) (st : BState) :
    Except String BState :=
  svc.volumes.foldlM (handle_one_volume ctx fs name volumes) st

/-- `re.search` of an alternation of literal words: the earliest match
position wins, and at a position the first alternative in pattern order
wins. -/
def reSearchAlt (words : List PyStr) : PyStr → Option PyStr
  | [] => words.find? fun w => w.isPrefixOf []
  | c :: rest =>
    match words.find? (fun w => w.isPrefixOf (c :: rest)) with
    | some w => some w
    | none => reSearchAlt words rest

/-- The database engine names recognized inside image repo strings. -/
def supported : List PyStr := [pyStr "mariadb", pyStr "postgres", pyStr "redis"]

/-- `handle_service_image(name, svc)`: record `{service, tag, kind?}`
keyed by the full image string, the tag being the part after the last
`:` (the whole string when there is none). -/
def handle_service_image (name : PyStr) (svc : Service) (st : BState) : BState :=
  let image := svc.image
  let tag := (pySplit 58 image).getLastD []
  let data : ImageTag := { service := name, tag := tag, kind := reSearchAlt supported image }
  { st with images_tags := dictSet st.images_tags image data }

/-- Per-service orchestration inside `handle_services`. -/
def handle_one_service (ctx : Ctx) (fs : PyStr → Option PyStr) (og : OgCompose)
    (volumes : List (PyStr × Option Volume)) (st : BState)
    (entry : PyStr × Service) : Except String BState := do
  let st ← handle_svc_environment ctx fs og entry.1 entry.2 st
  let st ← handle_svc_volumes ctx fs entry.1 entry.2 volumes st
  let st := handle_svc_ports ctx entry.1 entry.2 st
  return handle_service_image entry.1 entry.2 st

/-- `handle_services(model)`: walk every service in map order. -/
def handle_services (ctx : Ctx) (fs : PyStr → Option PyStr) (model : ComposeModel)
    (og : OgCompose) (st : BState) : Except String BState :=
  model.services.foldlM (handle_one_service ctx fs og model.volumes) st

/-- `add_releases_to_defaults()`: build the service→tag dict from the
collected `images_tags` and append the aggregate record unconditionally —
no `services_by_env` seen-check, no `original_key` field, service field
the literal string `"None"`. -/
def add_releases_to_defaults (ctx : Ctx) (st : BState) : BState :=
  let defaults := st.images_tags.foldl
    (fun d kv => dictSet d (ImageTag.service kv.2) (ImageTag.tag kv.2)) []
  { st with defaults := st.defaults ++
      [{ key := variable_from_env ctx releases_key, original_key := none,
         value := Value.dict defaults, is_secret := false,
         service := pyStr "None", secret_path := none, secret_expr := none,
         env_file := none }] }

/-- C7: for a service port carrying a published host port (whose source
key is not yet registered), the walker appends the port to the service's
exposed-ports entry and appends one non-secret record whose source key
(`original_key`) is exactly `host_port_<service>_<port>` — no configured
defaults prefix on it; a port without a published host port leaves the
state untouched. -/
theorem handle_one_port_spec (ctx : Ctx) (name : PyStr) (st : BState) (port : PortSpec) :
    (PortSpec.published port = none → handle_one_port ctx name st port = st) ∧
    (∀ p : Nat, PortSpec.published port = some p →
      (lookupA st.services_by_env (variable_from_port ctx name p false)).getD [] = [] →
      (handle_one_port ctx name st port).exposed_ports_by_service =
          appendAt st.exposed_ports_by_service name p ∧
      ∃ r : DefaultRecord,
        (handle_one_port ctx name st port).defaults = st.defaults ++ [r] ∧
        r.original_key = some (pyStr "host_port_" ++ name ++ [95] ++ natToStr p) ∧
        r.original_key = some (variable_from_port ctx name p false) ∧
        r.is_secret = false ∧ r.value = Value.int p ∧ r.service = name) := by
  constructor
  · intro h
    simp [handle_one_port, h]
  · intro p hp hfresh
    simp only [handle_one_port, hp]
    obtain ⟨hd, hs, hexp, hb, hv, hi⟩ :=
      add_to_defaults_of_unseen ctx
        { st with exposed_ports_by_service := appendAt st.exposed_ports_by_service name p }
        (variable_from_port ctx name p false) (Value.int p) name false none hfresh
    refine ⟨by rw [hexp], ?_⟩
    exact ⟨_, hd, rfl, rfl, rfl, rfl, rfl⟩

/-- Witness for C7: service `web` publishing 8080 from the empty state. -/
theorem handle_one_port_spec_witness :
    (lookupA BState.empty.services_by_env
        (variable_from_port ctx0 (pyStr "web") 8080 false)).getD [] = [] ∧
      ((handle_one_port ctx0 (pyStr "web") BState.empty ⟨some 8080⟩).exposed_ports_by_service =
          appendAt BState.empty.exposed_ports_by_service (pyStr "web") 8080 ∧
        ∃ r : DefaultRecord,
          (handle_one_port ctx0 (pyStr "web") BState.empty ⟨some 8080⟩).defaults =
              BState.empty.defaults ++ [r] ∧
          r.original_key = some (pyStr "host_port_" ++ pyStr "web" ++ [95] ++ natToStr 8080) ∧
          r.original_key = some (variable_from_port ctx0 (pyStr "web") 8080 false) ∧
          r.is_secret = false ∧ r.value = Value.int 8080 ∧ r.service = pyStr "web") :=
  ⟨by decide,
    (handle_one_port_spec ctx0 (pyStr "web") BState.empty ⟨some 8080⟩).2 8080 rfl (by decide)⟩

/-- C8: a bind mount whose file exists but whose first line does not start
with the env-file marker contributes zero variable records — the defaults
list is unchanged — while its source path is still appended to the
backup-path list (and the volume-defaults entry is still made). -/
theorem handle_one_volume_no_marker (ctx : Ctx) (fs : PyStr → Option PyStr)
    (name : PyStr) (volumes : List (PyStr × Option Volume)) (st : BState)
    (vol : Mount) (content l0 : PyStr) (ls : List PyStr)
    (hbind : vol.type = pyStr "bind")
    (hfile : fs (resolvePath ctx vol.source) = some content)
    (hlines : pySplitlines content = l0 :: ls)
    (hmark : file_type_env.isPrefixOf l0 = false) :
    ∃ st' : BState, handle_one_volume ctx fs name volumes st vol = .ok st' ∧
      st'.defaults = st.defaults ∧
      st'.backup_paths = st.backup_paths ++ [vol.source] := by
  have hcond : (vol.type == pyStr "bind") = true := by
    rw [hbind]
    decide
  have henvf : env_from_file fs (resolvePath ctx vol.source) false = .ok [] := by
    unfold env_from_file
    rw [hfile]
    show env_to_dict (iterLines (pySplitlines content) false) = .ok []
    rw [hlines]
    simp only [iterLines, hmark, Bool.not_false, Bool.not_true, Bool.and_false,
      Bool.false_and, Bool.and_self]
    rfl
  have hscan : ∀ st1 : BState, handle_svc_env_file ctx fs name vol.source st1 = st1 := by
    intro st1
    unfold handle_svc_env_file
    rw [hfile, henvf]
    rfl
  simp only [handle_one_volume, hcond, if_true]
  refine ⟨_, rfl, ?_, ?_⟩
  · rw [hscan]
  · rw [hscan]

/-- Witness inputs for C8: a bind-mounted config file with no marker. -/
def fs0 : PyStr → Option PyStr := fun p =>
  if p = resolvePath ctx0 (pyStr "./data/app.conf") then some (pyStr "setting=1") else none

/-- Witness for C8 at the bind mount `./data/app.conf` holding one
marker-less line. -/
theorem handle_one_volume_no_marker_witness :
    (Mount.mk (pyStr "bind") (pyStr "./data/app.conf")).type = pyStr "bind" ∧
      fs0 (resolvePath ctx0 (pyStr "./data/app.conf")) = some (pyStr "setting=1") ∧
      pySplitlines (pyStr "setting=1") = [pyStr "setting=1"] ∧
      file_type_env.isPrefixOf (pyStr "setting=1") = false ∧
      ∃ st' : BState,
        handle_one_volume ctx0 fs0 (pyStr "web") [] BState.empty
            (Mount.mk (pyStr "bind") (pyStr "./data/app.conf")) = .ok st' ∧
        st'.defaults = BState.empty.defaults ∧
        st'.backup_paths = BState.empty.backup_paths ++
          [(Mount.mk (pyStr "bind") (pyStr "./data/app.conf")).source] :=
  ⟨rfl, by decide, by decide, by decide,
    handle_one_volume_no_marker ctx0 fs0 (pyStr "web") [] BState.empty
      (Mount.mk (pyStr "bind") (pyStr "./data/app.conf"))
      (pyStr "setting=1") (pyStr "setting=1") [] rfl (by decide) (by decide) (by decide)⟩

/-- Original-descriptor service for the C6 scenario: nonempty environment
and a declared `env_file: missing.env`. -/
def ogsvcWeb : OgService :=
  { environment := OgEnv.dict [(pyStr "A", pyStr "1")],
    env_file := some (EnvFileDecl.one (pyStr "missing.env")),
    volumes := [], ports := [], image := pyStr "nginx:1.25",
    user := none, networks := none }

/-- Original descriptor for the C6 scenario. -/
def ogWebMissing : OgCompose :=
  { services := [(pyStr "web", ogsvcWeb)], networks := none }

/-- Canonical service for the C6 scenario. -/
def svcWebA : Service :=
  { environment := [(pyStr "A", pyStr "1")], volumes := [], ports := [],
    image := pyStr "nginx:1.25" }

/-- C6 counterexample: a service whose declared env-file is absent.
`handle_svc_environment` reads it through `env_from_file` with no
try/except, so `Path.read_text` raising `FileNotFoundError` aborts the
run — it does not degrade to zero variables. -/
theorem handle_svc_environment_missing_env_file_aborts :
    handle_svc_environment ctx0 (fun _ => none) ogWebMissing (pyStr "web")
        svcWebA BState.empty = .error "FileNotFoundError" := by
  rfl

/-- C6 (amended): the graceful degradation applies to bind-mounted
candidate env files — a missing file or a caught parse failure leaves the
state unchanged and processing continues — whereas a service-declared
env-file reference whose file is absent propagates `FileNotFoundError`
out of `handle_svc_environment`, aborting the run. -/
theorem env_source_error_handling (ctx : Ctx) (fs : PyStr → Option PyStr)
    (name path : PyStr) (st : BState) (og : OgCompose) (name2 : PyStr)
    (svc : Service) (st2 : BState) (ogsvc : OgService) (fp : PyStr) (e : String) :
    (fs (resolvePath ctx path) = none →
      handle_svc_env_file ctx fs name path st = st) ∧
    (env_from_file fs (resolvePath ctx path) false = .error e →
      handle_svc_env_file ctx fs name path st = st) ∧
    (svc.environment ≠ [] →
      lookupA og.services name2 = some ogsvc →
      OgService.env_file ogsvc = some (EnvFileDecl.one fp) →
      fs (resolvePath ctx fp) = none →
      handle_svc_environment ctx fs og name2 svc st2 = .error "FileNotFoundError") := by
  refine ⟨?_, ?_, ?_⟩
  · intro h
    unfold handle_svc_env_file
    rw [h]
  · intro h
    unfold handle_svc_env_file
    cases hf : fs (resolvePath ctx path) with
    | none => rfl
    | some c =>
      rw [h]
  · intro henv hlook hef hfs
    have hfile : env_from_file fs (resolvePath ctx fp) true =
        .error "FileNotFoundError" := by
      unfold env_from_file
      rw [hfs]
    have hread : read_env_files ctx fs (some (EnvFileDecl.one fp)) =
        .error "FileNotFoundError" := by
      unfold read_env_files envFileList
      simp only [List.foldlM, hfile]
      rfl
    unfold handle_svc_environment
    rw [if_neg henv, hlook]
    simp only [pure_bind]
    rw [hef, hread]
    rfl

/-- Witness for C6 (amended): a missing bind-mounted file leaves the state
unchanged; the missing declared env-file of `ogWebMissing` aborts. -/
theorem env_source_error_handling_witness :
    handle_svc_env_file ctx0 (fun _ => none) (pyStr "web") (pyStr "./cfg")
        BState.empty = BState.empty ∧
      handle_svc_environment ctx0 (fun _ => none) ogWebMissing (pyStr "web")
        svcWebA BState.empty = .error "FileNotFoundError" :=
  ⟨(env_source_error_handling ctx0 (fun _ => none) (pyStr "web") (pyStr "./cfg")
      BState.empty ogWebMissing (pyStr "web") svcWebA BState.empty ogsvcWeb
      (pyStr "missing.env") "unused").1 rfl,
    (env_source_error_handling ctx0 (fun _ => none) (pyStr "web") (pyStr "./cfg")
      BState.empty ogWebMissing (pyStr "web") svcWebA BState.empty ogsvcWeb
      (pyStr "missing.env") "unused").2.2 (by decide) (by decide) (by decide) rfl⟩

/-! ### Descriptor rewriter (`create_final_compose`) -/

deriving instance DecidableEq for Except

theorem except_error_bind {ε α β : Type} (e : ε) (f : α → Except ε β) :
    (Except.error e >>= f) = Except.error e := rfl

theorem except_ok_bind {ε α β : Type} (a : α) (f : α → Except ε β) :
    (Except.ok a >>= f) = f a := rfl

/-- The jinja placeholder `"{{ <var> }}"` substituted by the rewriter. -/
def mkPlaceholder (var : PyStr) : PyStr :=
  pyStr "\x7b\x7b " ++ var ++ pyStr " \x7d\x7d"

/-- The placeholder substituted for an image tag:
`f"{{ {variable_from_env(releases_key)}['{name}'] }}"`. -/
def releasesPlaceholder (ctx : Ctx) (name : PyStr) : PyStr :=
  pyStr "\x7b\x7b " ++ variable_from_env ctx releases_key ++
    pyStr "[\x27" ++ name ++ pyStr "\x27] \x7d\x7d"

/-- `env_ = data.get("environment", {})`, converted with `env_to_dict`
when in list form (its `ValueError` propagates). -/
def ogEnvDict : OgEnv → Except String (List (PyStr × PyStr))
  | .list items => env_to_dict items
  | .dict m => pure m

/-- The volume rewrite loop of `create_final_compose`: for index `i`, read
the canonicalized mount source at the same index
(`model.services[name].volumes[ix].source`; `KeyError`/`IndexError`
propagate) and, when it has a `volume_defaults` entry, substitute its
placeholder into the original literal spec string. -/
def rewrite_volumes (model : ComposeModel) (st : BState) (name : PyStr)
    (vols : List PyStr) : Except String (List PyStr) :=
  vols.enum.mapM (fun ixvol => do
    let msvc ← match lookupA model.services name with
      | some s => pure s
      | none => Except.error "KeyError"
    match msvc.volumes.get? ixvol.1 with
    | none => Except.error "IndexError"
    | some mv =>
      match lookupA st.volume_defaults (Mount.source mv) with
      | some vkey => pure (pyReplace ixvol.2 (Mount.source mv) (mkPlaceholder vkey))
      | none => pure ixvol.2)

/-- The per-service body of `create_final_compose`: rewrite every env
value to its variable placeholder (keyed purely by env-var name), rewrite
volume sources, zip the literal ports with the recorded exposed ports and
patch their leading host-port token (`data["ports"] = new_ports` only when
nonempty), patch the image tag with the releases placeholder, and replace
digit runs in `user` when a uid override is configured. -/
def rewrite_service (ctx : Ctx) (model : ComposeModel) (st : BState)
    (name : PyStr) (data : OgService) : Except String OgService := do
  let env ← ogEnvDict (OgService.environment data)
  let env' := env.map (fun kv => (kv.1, mkPlaceholder (variable_from_env ctx kv.1)))
  let vols ← rewrite_volumes model st name (OgService.volumes data)
  let zipped := (OgService.ports data).zip
    ((lookupA st.exposed_ports_by_service name).getD [])
  let new_ports := zipped.map (fun pe =>
    patch_port pe.1 (mkPlaceholder (variable_from_port ctx name pe.2 true)))
  let ports' := if new_ports ≠ [] then new_ports else OgService.ports data
  let user' :=
    match Ctx.uid ctx, OgService.user data with
    | some u, some us =>
      if u ≠ 0 ∧ us ≠ [] then some (replaceDigitRuns us (natToStr u))
      else OgService.user data
    | _, _ => OgService.user data
  let result : OgService := OgService.mk (OgEnv.dict env') (OgService.env_file data)
    vols ports' (patch_image_tag (OgService.image data) (releasesPlaceholder ctx name))
    user' (OgService.networks data)
  return result

/-- `handle_proxy_container(compose_config)`: no-op without a configured
proxy container; otherwise append the external net to that service's
network list (plus `default` when the list would end up a singleton) and
`setdefault` the external network declaration. -/
def handle_proxy_container (ctx : Ctx) (cfg : OgCompose) : Except String OgCompose :=
  match Ctx.proxy_container ctx with
  | none => .ok cfg
  | some pc =>
    let nets := (OgCompose.networks cfg).getD []
    match lookupA cfg.services pc with
    | none => .error "KeyError"
    | some svc =>
      let svcNets1 := (OgService.networks svc).getD [] ++ [Ctx.ext_proxy_net ctx]
      let svcNets2 :=
        if svcNets1.length = 1 then svcNets1 ++ [pyStr "default"] else svcNets1
      let extNetDef : NetworkDef := { name := Ctx.ext_proxy_net ctx, external := true }
      let nets' :=
        if (lookupA nets (Ctx.ext_proxy_net ctx)).isSome then nets
        else nets ++ [(Ctx.ext_proxy_net ctx, extNetDef)]
      let svcNew : OgService := { svc with networks := some svcNets2 }
      .ok { cfg with services := dictSet cfg.services pc svcNew, networks := some nets' }

/-- `create_final_compose(final)`: rewrite every service of the original
descriptor, then inject the proxy network. -/
def create_final_compose (ctx : Ctx) (model : ComposeModel) (st : BState)
    (og : OgCompose) : Except String OgCompose := do
  let services ← og.services.mapM (fun entry => do
    let svcNew ← rewrite_service ctx model st entry.1 entry.2
    pure (entry.1, svcNew))
  handle_proxy_container ctx { og with services := services }

/-- The whole transformation after parsing: walk the services, synthesize
the releases aggregate, rewrite the original descriptor. -/
def run_pipeline (ctx : Ctx) (fs : PyStr → Option PyStr) (model : ComposeModel)
    (og : OgCompose) : Except String (BState × OgCompose) := do
  let st ← handle_services ctx fs model og BState.empty
  let fc ← create_final_compose ctx model (add_releases_to_defaults ctx st) og
  pure (add_releases_to_defaults ctx st, fc)

theorem pySplit_no_sep (sep : Nat) (s : PyStr) (h : sep ∉ s) : pySplit sep s = [s] := by
  induction s with
  | nil => rfl
  | cons c rest ih =>
    have hc : ¬(c = sep) := by
      intro e
      exact h (e ▸ List.mem_cons_self c rest)
    have hr : sep ∉ rest := fun m => h (List.mem_cons_of_mem _ m)
    simp only [pySplit, ih hr]
    rw [if_neg hc]

theorem patch_image_tag_no_colon (image t : PyStr) (h : 58 ∉ image) :
    patch_image_tag image t = t := by
  unfold patch_image_tag
  rw [pySplit_no_sep 58 image h]
  simp [joinWith]

/-- C9: when a service's image string contains no `:`, the rewriter
replaces the whole image field with just the releases placeholder — the
bare repository name is dropped (`":".join((*image.split(":")[:-1], tag))`
with a singleton split yields just `tag`). -/
theorem rewrite_image_no_tag (ctx : Ctx) (model : ComposeModel) (st : BState)
    (name : PyStr) (data data' : OgService)
    (hok : rewrite_service ctx model st name data = .ok data')
    (hnc : 58 ∉ OgService.image data) :
    OgService.image data' = releasesPlaceholder ctx name := by
  unfold rewrite_service at hok
  cases h1 : ogEnvDict (OgService.environment data) with
  | error e =>
    rw [h1, except_error_bind] at hok
    exact Except.noConfusion hok
  | ok env =>
    rw [h1, except_ok_bind] at hok
    cases h2 : rewrite_volumes model st name (OgService.volumes data) with
    | error e =>
      rw [h2, except_error_bind] at hok
      exact Except.noConfusion hok
    | ok vols =>
      rw [h2, except_ok_bind] at hok
      injection hok with hrec
      rw [← hrec]
      exact patch_image_tag_no_colon _ _ hnc

/-- C9 witness inputs: a service whose image is the bare repository
`nginx` with no tag. -/
def svcPlain : Service :=
  { environment := [], volumes := [], ports := [], image := pyStr "nginx" }

/-- C9 witness canonical model. -/
def modelPlain : ComposeModel := { services := [(pyStr "web", svcPlain)], volumes := [] }

/-- C9 witness original service. -/
def ogsvcPlain : OgService :=
  { environment := OgEnv.dict [], env_file := none, volumes := [], ports := [],
    image := pyStr "nginx", user := none, networks := none }

/-- Witness for C9: rewriting the bare-image service replaces the image
field with just the releases placeholder. -/
theorem rewrite_image_no_tag_witness :
    rewrite_service ctx0 modelPlain BState.empty (pyStr "web") ogsvcPlain =
        .ok (OgService.mk (OgEnv.dict []) none [] []
          (releasesPlaceholder ctx0 (pyStr "web")) none none) ∧
      (58 : Nat) ∉ OgService.image ogsvcPlain ∧
      OgService.image (OgService.mk (OgEnv.dict []) none [] []
          (releasesPlaceholder ctx0 (pyStr "web")) none none) =
        releasesPlaceholder ctx0 (pyStr "web") :=
  ⟨by decide, by decide,
    rewrite_image_no_tag ctx0 modelPlain BState.empty (pyStr "web") ogsvcPlain
      (OgService.mk (OgEnv.dict []) none [] []
        (releasesPlaceholder ctx0 (pyStr "web")) none none)
      (by decide) (by decide)⟩

/-- The defaults list of a pipeline result (empty on error). -/
def pipelineDefaults (x : Except String (BState × OgCompose)) : List DefaultRecord :=
  match x with
  | .ok res => res.1.defaults
  | .error _ => []

/-- C10 inputs: service `web` declares the env var `RELEASES` — whose
normalized name equals the releases key — with image `nginx:1.25`. -/
def svcRel : Service :=
  { environment := [(pyStr "RELEASES", pyStr "x")], volumes := [], ports := [],
    image := pyStr "nginx:1.25" }

/-- C10 canonical model. -/
def modelRel : ComposeModel := { services := [(pyStr "web", svcRel)], volumes := [] }

/-- C10 original service. -/
def ogsvcRel : OgService :=
  { environment := OgEnv.dict [(pyStr "RELEASES", pyStr "x")], env_file := none,
    volumes := [], ports := [], image := pyStr "nginx:1.25", user := none,
    networks := none }

/-- C10 original descriptor. -/
def ogRel : OgCompose := { services := [(pyStr "web", ogsvcRel)], networks := none }

/-- C10: the aggregate releases record is appended unconditionally,
bypassing the registry's seen-key check: on this input the pipeline
succeeds and the final defaults list holds *two* records with key
`<prefix>releases` — one from the env var `RELEASES`, one aggregate. -/
theorem releases_bypasses_registry :
    (run_pipeline ctx0 (fun _ => none) modelRel ogRel).isOk = true ∧
      ((pipelineDefaults (run_pipeline ctx0 (fun _ => none) modelRel ogRel)).filter
          (fun r => r.key == variable_from_env ctx0 releases_key)).length = 2 := by
  constructor
  · decide
  · decide

/-! ### Registry coverage invariants (for the round-trip property) -/

/-- A source key counted as seen by the registry's truthiness check. -/
def seenNE (st : BState) (k : PyStr) : Prop :=
  (lookupA st.services_by_env k).getD [] ≠ []

/-- Every seen source key has a record carrying its normalized key. -/
def INV (ctx : Ctx) (st : BState) : Prop :=
  ∀ k, seenNE st k → ∃ r ∈ st.defaults, DefaultRecord.key r = variable_from_env ctx k

/-- Every recorded exposed port's source key is seen. -/
def INV2 (ctx : Ctx) (st : BState) : Prop :=
  ∀ name p, p ∈ (lookupA st.exposed_ports_by_service name).getD [] →
    seenNE st (variable_from_port ctx name p false)

/-- The combined walker invariant. -/
def WF (ctx : Ctx) (st : BState) : Prop := INV ctx st ∧ INV2 ctx st

/-- Walker steps only grow the seen set, the record list and the exposed
port lists. -/
def Sub (st st' : BState) : Prop :=
  (∀ k, seenNE st k → seenNE st' k) ∧
  (∀ r, r ∈ st.defaults → r ∈ st'.defaults) ∧
  (∀ name p, p ∈ (lookupA st.exposed_ports_by_service name).getD [] →
    p ∈ (lookupA st'.exposed_ports_by_service name).getD [])

theorem Sub.rfl (st : BState) : Sub st st :=
  ⟨fun _ h => h, fun _ h => h, fun _ _ h => h⟩

theorem Sub.trans {s1 s2 s3 : BState} (h1 : Sub s1 s2) (h2 : Sub s2 s3) : Sub s1 s3 :=
  ⟨fun k h => h2.1 k (h1.1 k h), fun r h => h2.2.1 r (h1.2.1 r h),
   fun n p h => h2.2.2 n p (h1.2.2 n p h)⟩

theorem getD_appendAt_mono {α : Type} (d : List (PyStr × List α)) (k k' : PyStr)
    (v x : α) (h : x ∈ (lookupA d k').getD []) :
    x ∈ (lookupA (appendAt d k v) k').getD [] := by
  by_cases he : k' = k
  · subst he
    rw [lookupA_appendAt_self]
    exact List.mem_append.mpr (Or.inl h)
  · rwa [lookupA_appendAt_ne d k k' v he]

theorem getD_appendAt_self {α : Type} (d : List (PyStr × List α)) (k : PyStr) (v : α) :
    v ∈ (lookupA (appendAt d k v) k).getD [] := by
  rw [lookupA_appendAt_self]
  exact List.mem_append.mpr (Or.inr (List.mem_singleton.mpr (Eq.refl v)))

theorem getD_appendAt_inv {α : Type} (d : List (PyStr × List α)) (k k' : PyStr)
    (v x : α) (h : x ∈ (lookupA (appendAt d k v) k').getD []) :
    x ∈ (lookupA d k').getD [] ∨ (k' = k ∧ x = v) := by
  by_cases he : k' = k
  · subst he
    rw [lookupA_appendAt_self] at h
    rcases List.mem_append.mp h with h | h
    · exact Or.inl h
    · exact Or.inr ⟨Eq.refl k', List.mem_singleton.mp h⟩
  · rw [lookupA_appendAt_ne d k k' v he] at h
    exact Or.inl h

theorem seenNE_appendAt (d : List (PyStr × List PyStr)) (k k' v : PyStr)
    (h : (lookupA d k').getD [] ≠ []) :
    (lookupA (appendAt d k v) k').getD [] ≠ [] := by
  by_cases he : k' = k
  · subst he
    rw [lookupA_appendAt_self]
    simp
  · rwa [lookupA_appendAt_ne d k k' v he]

theorem seenNE_appendAt_self (d : List (PyStr × List PyStr)) (k v : PyStr) :
    (lookupA (appendAt d k v) k).getD [] ≠ [] := by
  rw [lookupA_appendAt_self]
  simp

theorem add_to_defaults_Sub (ctx : Ctx) (st : BState) (k : PyStr) (v : Value)
    (s : PyStr) (b : Bool) (ef : Option PyStr) :
    Sub st (add_to_defaults ctx st k v s b ef) := by
  by_cases h : (lookupA st.services_by_env k).getD [] ≠ []
  · rw [add_to_defaults_of_seen ctx st k v s b ef h]
    exact Sub.rfl st
  · push_neg at h
    obtain ⟨hd, hs, hexp, -, -, -⟩ := add_to_defaults_of_unseen ctx st k v s b ef h
    refine ⟨?_, ?_, ?_⟩
    · intro k' hk'
      unfold seenNE at hk' ⊢
      rw [hs]
      exact seenNE_appendAt _ _ _ _ hk'
    · intro r hr
      rw [hd]
      exact List.mem_append.mpr (Or.inl hr)
    · intro n p hp
      rw [hexp]
      exact hp

theorem add_to_defaults_seen_self (ctx : Ctx) (st : BState) (k : PyStr) (v : Value)
    (s : PyStr) (b : Bool) (ef : Option PyStr) :
    seenNE (add_to_defaults ctx st k v s b ef) k := by
  by_cases h : (lookupA st.services_by_env k).getD [] ≠ []
  · rw [add_to_defaults_of_seen ctx st k v s b ef h]
    exact h
  · push_neg at h
    obtain ⟨-, hs, -, -, -, -⟩ := add_to_defaults_of_unseen ctx st k v s b ef h
    unfold seenNE
    rw [hs]
    exact seenNE_appendAt_self _ _ _

theorem add_to_defaults_INV (ctx : Ctx) (st : BState) (k : PyStr) (v : Value)
    (s : PyStr) (b : Bool) (ef : Option PyStr) (hinv : INV ctx st) :
    INV ctx (add_to_defaults ctx st k v s b ef) := by
  by_cases h : (lookupA st.services_by_env k).getD [] ≠ []
  · rw [add_to_defaults_of_seen ctx st k v s b ef h]
    exact hinv
  · push_neg at h
    obtain ⟨hd, hs, -, -, -, -⟩ := add_to_defaults_of_unseen ctx st k v s b ef h
    intro k' hk'
    unfold seenNE at hk'
    rw [hs] at hk'
    by_cases he : k' = k
    · subst he
      refine ⟨⟨variable_from_env ctx k', some k', v, b, s,
        if b then some (get_secret_path ctx s k') else none,
        if b then some (get_secret_expr ctx (get_secret_path ctx s k') v) else none,
        ef⟩, ?_, rfl⟩
      rw [hd]
      exact List.mem_append.mpr (Or.inr (List.mem_singleton.mpr (Eq.refl _)))
    · have hseen : seenNE st k' := by
        unfold seenNE
        rwa [lookupA_appendAt_ne _ _ _ _ he] at hk'
      obtain ⟨r, hr, hkey⟩ := hinv k' hseen
      exact ⟨r, by rw [hd]; exact List.mem_append.mpr (Or.inl hr), hkey⟩

theorem add_to_defaults_INV2 (ctx : Ctx) (st : BState) (k : PyStr) (v : Value)
    (s : PyStr) (b : Bool) (ef : Option PyStr) (hinv2 : INV2 ctx st) :
    INV2 ctx (add_to_defaults ctx st k v s b ef) := by
  by_cases h : (lookupA st.services_by_env k).getD [] ≠ []
  · rw [add_to_defaults_of_seen ctx st k v s b ef h]
    exact hinv2
  · push_neg at h
    obtain ⟨-, hs, hexp, -, -, -⟩ := add_to_defaults_of_unseen ctx st k v s b ef h
    intro n p hp
    rw [hexp] at hp
    have := hinv2 n p hp
    unfold seenNE at this ⊢
    rw [hs]
    exact seenNE_appendAt _ _ _ _ this

theorem add_to_defaults_WF (ctx : Ctx) (st : BState) (k : PyStr) (v : Value)
    (s : PyStr) (b : Bool) (ef : Option PyStr) (hwf : WF ctx st) :
    WF ctx (add_to_defaults ctx st k v s b ef) :=
  ⟨add_to_defaults_INV ctx st k v s b ef hwf.1,
   add_to_defaults_INV2 ctx st k v s b ef hwf.2⟩

theorem foldl_Sub {β : Type} (f : BState → β → BState)
    (hf : ∀ st b, Sub st (f st b)) :
    ∀ (l : List β) (st : BState), Sub st (l.foldl f st) := by
  intro l
  induction l with
  | nil => intro st; exact Sub.rfl st
  | cons b t ih => intro st; exact Sub.trans (hf st b) (ih (f st b))

theorem foldl_WF {β : Type} (ctx : Ctx) (f : BState → β → BState)
    (hf : ∀ st b, WF ctx st → WF ctx (f st b)) :
    ∀ (l : List β) (st : BState), WF ctx st → WF ctx (l.foldl f st) := by
  intro l
  induction l with
  | nil => intro st h; exact h
  | cons b t ih => intro st h; exact ih (f st b) (hf st b h)

theorem foldl_coverage {β : Type} (f : BState → β → BState) (key : β → PyStr)
    (hfsub : ∀ st b, Sub st (f st b))
    (hfkey : ∀ st b, seenNE (f st b) (key b)) :
    ∀ (l : List β) (st : BState) (b : β), b ∈ l → seenNE (l.foldl f st) (key b) := by
  intro l
  induction l with
  | nil => intro st b h; exact absurd h (List.not_mem_nil b)
  | cons b0 t ih =>
    intro st b h
    rcases List.mem_cons.mp h with h | h
    · subst h
      exact (foldl_Sub f hfsub t (f st b)).1 (key b) (hfkey st b)
    · exact ih (f st b0) b h

theorem handle_svc_env_file_Sub (ctx : Ctx) (fs : PyStr → Option PyStr)
    (name path : PyStr) (st : BState) :
    Sub st (handle_svc_env_file ctx fs name path st) := by
  unfold handle_svc_env_file
  cases fs (resolvePath ctx path) with
  | none => exact Sub.rfl st
  | some c =>
    cases env_from_file fs (resolvePath ctx path) false with
    | error e => exact Sub.rfl st
    | ok env =>
      exact foldl_Sub _ (fun st' kv => add_to_defaults_Sub ctx st' kv.1 (Value.str kv.2)
        name (is_secret name kv.1 kv.2 []) (some path)) env st

theorem handle_svc_env_file_WF (ctx : Ctx) (fs : PyStr → Option PyStr)
    (name path : PyStr) (st : BState) (h : WF ctx st) :
    WF ctx (handle_svc_env_file ctx fs name path st) := by
  unfold handle_svc_env_file
  cases fs (resolvePath ctx path) with
  | none => exact h
  | some c =>
    cases env_from_file fs (resolvePath ctx path) false with
    | error e => exact h
    | ok env =>
      exact foldl_WF ctx _ (fun st' kv hw => add_to_defaults_WF ctx st' kv.1 (Value.str kv.2)
        name (is_secret name kv.1 kv.2 []) (some path) hw) env st h

set_option maxHeartbeats 1000000 in
theorem handle_svc_environment_ok (ctx : Ctx) (fs : PyStr → Option PyStr)
    (og : OgCompose) (name : PyStr) (svc : Service) (st st' : BState)
    (h : handle_svc_environment ctx fs og name svc st = .ok st') :
    Sub st st' ∧ (WF ctx st → WF ctx st') ∧
      (∀ kv, kv ∈ svc.environment → seenNE st' kv.1) := by
  unfold handle_svc_environment at h
  by_cases henv : svc.environment = []
  · rw [if_pos henv] at h
    injection h with h
    subst h
    exact ⟨Sub.rfl st, fun w => w, fun kv hkv => absurd (henv ▸ hkv) (List.not_mem_nil kv)⟩
  · rw [if_neg henv] at h
    cases hlook : lookupA og.services name with
    | none =>
      rw [hlook] at h
      exact Except.noConfusion h
    | some ogsvc =>
      rw [hlook] at h
      simp only [pure_bind] at h
      cases hread : read_env_files ctx fs (OgService.env_file ogsvc) with
      | error e =>
        rw [hread, except_error_bind] at h
        exact Except.noConfusion h
      | ok names =>
        rw [hread, except_ok_bind] at h
        injection h with h
        subst h
        refine ⟨?_, ?_, ?_⟩
        · exact foldl_Sub _ (fun st'' kv => add_to_defaults_Sub ctx st'' kv.1
            (Value.str kv.2) name (is_secret name kv.1 kv.2 [])
            (lookupA names kv.1)) svc.environment st
        · exact fun w => foldl_WF ctx _ (fun st'' kv hw => add_to_defaults_WF ctx st'' kv.1
            (Value.str kv.2) name (is_secret name kv.1 kv.2 [])
            (lookupA names kv.1) hw) svc.environment st w
        · exact fun kv hkv => foldl_coverage _ (fun kv => kv.1)
            (fun st'' b => add_to_defaults_Sub ctx st'' b.1 (Value.str b.2) name
              (is_secret name b.1 b.2 []) (lookupA names b.1))
            (fun st'' b => add_to_defaults_seen_self ctx st'' b.1 (Value.str b.2) name
              (is_secret name b.1 b.2 []) (lookupA names b.1))
            svc.environment st kv hkv

theorem handle_one_port_Sub (ctx : Ctx) (name : PyStr) (st : BState) (port : PortSpec) :
    Sub st (handle_one_port ctx name st port) := by
  unfold handle_one_port
  cases PortSpec.published port with
  | none => exact Sub.rfl st
  | some p =>
    have h1 : Sub st
        { st with exposed_ports_by_service := appendAt st.exposed_ports_by_service name p } :=
      ⟨fun k h => h, fun r h => h, fun n q h => getD_appendAt_mono _ _ _ _ _ h⟩
    exact Sub.trans h1 (add_to_defaults_Sub ctx _ _ _ _ _ _)

theorem handle_one_port_WF (ctx : Ctx) (name : PyStr) (st : BState) (port : PortSpec)
    (hwf : WF ctx st) : WF ctx (handle_one_port ctx name st port) := by
  unfold handle_one_port
  cases PortSpec.published port with
  | none => exact hwf
  | some p =>
    set st1 : BState :=
      { st with exposed_ports_by_service := appendAt st.exposed_ports_by_service name p }
      with hst1
    have hinv1 : INV ctx st1 := hwf.1
    constructor
    · exact add_to_defaults_INV ctx st1 _ _ _ _ _ hinv1
    · intro n q hq
      have hexp : (add_to_defaults ctx st1 (variable_from_port ctx name p false)
          (Value.int p) name false none).exposed_ports_by_service =
          st1.exposed_ports_by_service := by
        by_cases h : (lookupA st1.services_by_env (variable_from_port ctx name p false)).getD [] ≠ []
        · rw [add_to_defaults_of_seen ctx st1 _ _ _ _ _ h]
        · push_neg at h
          exact (add_to_defaults_of_unseen ctx st1 _ _ _ _ _ h).2.2.1
      rw [hexp] at hq
      have hq' : q ∈ (lookupA (appendAt st.exposed_ports_by_service name p) n).getD [] := hq
      rcases getD_appendAt_inv _ _ _ _ _ hq' with hold | ⟨hn, hqp⟩
      · have hseen := hwf.2 n q hold
        have hs1 : seenNE st1 (variable_from_port ctx n q false) := hseen
        exact (add_to_defaults_Sub ctx st1 _ _ _ _ _).1 _ hs1
      · subst hn
        subst hqp
        exact add_to_defaults_seen_self ctx st1 _ _ _ _ _

theorem handle_svc_ports_Sub (ctx : Ctx) (name : PyStr) (svc : Service) (st : BState) :
    Sub st (handle_svc_ports ctx name svc st) :=
  foldl_Sub _ (fun st' port => handle_one_port_Sub ctx name st' port) svc.ports st

theorem handle_svc_ports_WF (ctx : Ctx) (name : PyStr) (svc : Service) (st : BState)
    (h : WF ctx st) : WF ctx (handle_svc_ports ctx name svc st) :=
  foldl_WF ctx _ (fun st' port hw => handle_one_port_WF ctx name st' port hw) svc.ports st h

theorem handle_service_image_Sub (name : PyStr) (svc : Service) (st : BState) :
    Sub st (handle_service_image name svc st) :=
  ⟨fun _ h => h, fun _ h => h, fun _ _ h => h⟩

theorem handle_service_image_WF (ctx : Ctx) (name : PyStr) (svc : Service) (st : BState)
    (h : WF ctx st) : WF ctx (handle_service_image name svc st) := h

theorem handle_one_volume_ok (ctx : Ctx) (fs : PyStr → Option PyStr) (name : PyStr)
    (volumes : List (PyStr × Option Volume)) (st : BState) (vol : Mount) (st' : BState)
    (h : handle_one_volume ctx fs name volumes st vol = .ok st') :
    Sub st st' ∧ (WF ctx st → WF ctx st') := by
  unfold handle_one_volume at h
  by_cases hb : (vol.type == pyStr "bind") = true
  · rw [if_pos hb] at h
    injection h with h
    subst h
    constructor
    · have hA : Sub st { st with backup_paths := st.backup_paths ++ [vol.source] } :=
        ⟨fun k hh => hh, fun r hh => hh, fun n p hh => hh⟩
      refine Sub.trans hA ?_
      refine Sub.trans (handle_svc_env_file_Sub ctx fs name vol.source _) ?_
      exact ⟨fun k hh => hh, fun r hh => hh, fun n p hh => hh⟩
    · intro hw
      have h1 : WF ctx { st with backup_paths := st.backup_paths ++ [vol.source] } := hw
      have h2 := handle_svc_env_file_WF ctx fs name vol.source _ h1
      exact h2
  · rw [if_neg hb] at h
    by_cases hv : (vol.type == pyStr "volume") = true
    · rw [if_pos hv] at h
      cases hlk : lookupA volumes vol.source with
      | none =>
        rw [hlk] at h
        exact Except.noConfusion h
      | some ov =>
        cases ov with
        | none =>
          rw [hlk] at h
          exact Except.noConfusion h
        | some v =>
          rw [hlk] at h
          injection h with h
          subst h
          exact ⟨⟨fun k hh => hh, fun r hh => hh, fun n p hh => hh⟩, fun w => w⟩
    · rw [if_neg hv] at h
      injection h with h
      subst h
      exact ⟨Sub.rfl st, fun w => w⟩

theorem foldlM_Sub_WF {β : Type} (ctx : Ctx) (f : BState → β → Except String BState)
    (hf : ∀ st b st', f st b = .ok st' → Sub st st' ∧ (WF ctx st → WF ctx st')) :
    ∀ (l : List β) (st st' : BState), l.foldlM f st = .ok st' →
      Sub st st' ∧ (WF ctx st → WF ctx st') := by
  intro l
  induction l with
  | nil =>
    intro st st' h
    injection h with h
    subst h
    exact ⟨Sub.rfl st, fun w => w⟩
  | cons b t ih =>
    intro st st' h
    rw [List.foldlM_cons] at h
    cases hfb : f st b with
    | error e =>
      rw [hfb, except_error_bind] at h
      exact Except.noConfusion h
    | ok s1 =>
      rw [hfb, except_ok_bind] at h
      have h1 := hf st b s1 hfb
      have h2 := ih s1 st' h
      exact ⟨Sub.trans h1.1 h2.1, fun w => h2.2 (h1.2 w)⟩

theorem handle_svc_volumes_ok (ctx : Ctx) (fs : PyStr → Option PyStr) (name : PyStr)
    (svc : Service) (volumes : List (PyStr × Option Volume)) (st st' : BState)
    (h : handle_svc_volumes ctx fs name svc volumes st = .ok st') :
    Sub st st' ∧ (WF ctx st → WF ctx st') :=
  foldlM_Sub_WF ctx _ (fun st1 vol st1' hh => handle_one_volume_ok ctx fs name volumes
    st1 vol st1' hh) svc.volumes st st' h

theorem handle_one_service_ok (ctx : Ctx) (fs : PyStr → Option PyStr)
    (og : OgCompose) (volumes : List (PyStr × Option Volume)) (st : BState)
    (entry : PyStr × Service) (st' : BState)
    (h : handle_one_service ctx fs og volumes st entry = .ok st') :
    Sub st st' ∧ (WF ctx st → WF ctx st') ∧
      (∀ kv, kv ∈ entry.2.environment → seenNE st' kv.1) := by
  unfold handle_one_service at h
  cases h1 : handle_svc_environment ctx fs og entry.1 entry.2 st with
  | error e =>
    rw [h1, except_error_bind] at h
    exact Except.noConfusion h
  | ok s1 =>
    rw [h1, except_ok_bind] at h
    cases h2 : handle_svc_volumes ctx fs entry.1 entry.2 volumes s1 with
    | error e =>
      rw [h2, except_error_bind] at h
      exact Except.noConfusion h
    | ok s2 =>
      rw [h2, except_ok_bind] at h
      injection h with h
      subst h
      obtain ⟨hsubE, hwfE, hcov⟩ := handle_svc_environment_ok ctx fs og entry.1 entry.2 st s1 h1
      obtain ⟨hsubV, hwfV⟩ := handle_svc_volumes_ok ctx fs entry.1 entry.2 volumes s1 s2 h2
      have hsubP := handle_svc_ports_Sub ctx entry.1 entry.2 s2
      have hsubI := handle_service_image_Sub entry.1 entry.2
        (handle_svc_ports ctx entry.1 entry.2 s2)
      refine ⟨?_, ?_, ?_⟩
      · exact Sub.trans hsubE (Sub.trans hsubV (Sub.trans hsubP hsubI))
      · intro w
        exact handle_service_image_WF ctx entry.1 entry.2 _
          (handle_svc_ports_WF ctx entry.1 entry.2 s2 (hwfV (hwfE w)))
      · intro kv hkv
        exact (Sub.trans hsubV (Sub.trans hsubP hsubI)).1 kv.1 (hcov kv hkv)

theorem handle_services_ok_core (ctx : Ctx) (fs : PyStr → Option PyStr)
    (og : OgCompose) (volumes : List (PyStr × Option Volume)) :
    ∀ (l : List (PyStr × Service)) (st st' : BState),
      l.foldlM (handle_one_service ctx fs og volumes) st = .ok st' →
      Sub st st' ∧ (WF ctx st → WF ctx st') ∧
        (∀ entry, entry ∈ l → ∀ kv, kv ∈ entry.2.environment → seenNE st' kv.1) := by
  intro l
  induction l with
  | nil =>
    intro st st' h
    injection h with h
    subst h
    exact ⟨Sub.rfl st, fun w => w, fun e he => absurd he (List.not_mem_nil e)⟩
  | cons b t ih =>
    intro st st' h
    rw [List.foldlM_cons] at h
    cases hfb : handle_one_service ctx fs og volumes st b with
    | error e =>
      rw [hfb, except_error_bind] at h
      exact Except.noConfusion h
    | ok s1 =>
      rw [hfb, except_ok_bind] at h
      obtain ⟨hsub1, hwf1, hcov1⟩ := handle_one_service_ok ctx fs og volumes st b s1 hfb
      obtain ⟨hsub2, hwf2, hcov2⟩ := ih s1 st' h
      refine ⟨Sub.trans hsub1 hsub2, fun w => hwf2 (hwf1 w), ?_⟩
      intro entry he kv hkv
      rcases List.mem_cons.mp he with he | he
      · subst he
        exact hsub2.1 kv.1 (hcov1 kv hkv)
      · exact hcov2 entry he kv hkv

theorem WF_empty (ctx : Ctx) : WF ctx BState.empty := by
  constructor
  · intro k hk
    exact absurd rfl hk
  · intro n p hp
    exact absurd hp (List.not_mem_nil p)

theorem add_releases_Sub (ctx : Ctx) (st : BState) :
    Sub st (add_releases_to_defaults ctx st) :=
  ⟨fun _ h => h, fun r h => List.mem_append.mpr (Or.inl h), fun _ _ h => h⟩

theorem add_releases_WF (ctx : Ctx) (st : BState) (h : WF ctx st) :
    WF ctx (add_releases_to_defaults ctx st) := by
  constructor
  · intro k hk
    obtain ⟨r, hr, hkey⟩ := h.1 k hk
    exact ⟨r, List.mem_append.mpr (Or.inl hr), hkey⟩
  · exact h.2

theorem add_releases_mem (ctx : Ctx) (st : BState) :
    ∃ r ∈ (add_releases_to_defaults ctx st).defaults,
      DefaultRecord.key r = variable_from_env ctx releases_key := by
  refine ⟨DefaultRecord.mk (variable_from_env ctx releases_key) none
    (Value.dict (st.images_tags.foldl
      (fun d kv => dictSet d (ImageTag.service kv.2) (ImageTag.tag kv.2)) []))
    false (pyStr "None") none none none, ?_, rfl⟩
  exact List.mem_append.mpr (Or.inr (List.mem_singleton.mpr (Eq.refl _)))

/-- Characters the normalizer maps to themselves: not ASCII uppercase and
not `]`. -/
def inertCh (c : Nat) : Bool := decide (¬(65 ≤ c ∧ c ≤ 90) ∧ c ≠ 93)

theorem hasBadPair_false_of_no93 (s : PyStr) (h : ∀ c ∈ s, c ≠ 93) :
    hasBadPair s = false := by
  induction s with
  | nil => rfl
  | cons c t ih =>
    cases t with
    | nil => rfl
    | cons c2 rest =>
      have h2 : c2 ≠ 93 := h c2 (List.mem_cons_of_mem _ (List.mem_cons_self _ _))
      have ht : ∀ c' ∈ c2 :: rest, c' ≠ 93 :=
        fun c' hc' => h c' (List.mem_cons_of_mem _ hc')
      simp only [hasBadPair, ih ht, Bool.or_false]
      simp [h2]

theorem lowerStr_fix (s : PyStr) (h : ∀ c ∈ s, inertCh c = true) : lowerStr s = s := by
  induction s with
  | nil => rfl
  | cons c t ih =>
    have hc := h c (List.mem_cons_self _ _)
    simp only [inertCh, decide_eq_true_eq] at hc
    have hl : pyLower c = c := by
      unfold pyLower
      rw [if_neg hc.1]
    have hrest := ih fun c' hc' => h c' (List.mem_cons_of_mem _ hc')
    simp only [lowerStr, List.map_cons, hl] at hrest ⊢
    rw [hrest]

theorem normalize_fix (s : PyStr) (h : ∀ c ∈ s, inertCh c = true) :
    normalize_key_and_name s = s := by
  unfold normalize_key_and_name
  have h93 : ∀ c ∈ s, c ≠ 93 := by
    intro c hc
    have := h c hc
    simp only [inertCh, decide_eq_true_eq] at this
    exact this.2
  rw [subWsBr_of_no_bad s (hasBadPair_false_of_no93 s h93)]
  exact lowerStr_fix s h

theorem portkey_normalize (ctx : Ctx) (name : PyStr) (p : Nat)
    (hname : ∀ c ∈ name, inertCh c = true) :
    variable_from_env ctx (variable_from_port ctx name p false) =
      variable_from_port ctx name p true := by
  unfold variable_from_env variable_from_port
  have hchars : ∀ c ∈ ((if false then pfx ctx else []) ++ pyStr "host_port_" ++
      name ++ [95] ++ natToStr p), inertCh c = true := by
    intro c hc
    simp only [if_neg (Bool.false_ne_true), List.nil_append, List.mem_append,
      List.mem_singleton] at hc
    rcases hc with ((hc | hc) | hc) | hc
    · revert hc
      revert c
      decide
    · exact hname c hc
    · subst hc
      decide
    · have := natToStr_digits p c hc
      simp only [inertCh, decide_eq_true_eq]
      omega
  rw [normalize_fix _ hchars]
  simp

theorem lookupA_mem {α : Type} (d : List (PyStr × α)) (k : PyStr) (v : α)
    (h : lookupA d k = some v) : (k, v) ∈ d := by
  unfold lookupA at h
  cases hf : d.find? (fun kv => kv.1 == k) with
  | none =>
    rw [hf] at h
    exact Option.noConfusion h
  | some kv =>
    rw [hf] at h
    simp only [Option.map_some'] at h
    have hmem := List.mem_of_find?_eq_some hf
    have hpred := List.find?_some hf
    cases kv with
    | mk a b =>
      simp only at h hpred
      have ha : a = k := by simpa using hpred
      subst ha
      have hb : b = v := Option.some.inj h
      subst hb
      exact hmem

/-- Per-service condition that every env key the rewriter substitutes (the
original descriptor's env keys) is also a key of the canonicalized
service's resolved environment — which holds for descriptors produced by
the canonicalization step. -/
def envCovered (model : ComposeModel) (og : OgCompose) : Bool :=
  og.services.all fun entry =>
    match ogEnvDict (OgService.environment entry.2) with
    | .error _ => true
    | .ok env =>
      match lookupA model.services entry.1 with
      | none => env.all fun _ => false
      | some msvc => env.all fun kv => msvc.environment.any fun kv2 => kv2.1 == kv.1

/-- All service names of the original descriptor are left unchanged by the
normalizer (no uppercase letters, no `]`). -/
def inertNames (og : OgCompose) : Bool :=
  og.services.all fun entry => entry.1.all inertCh

/-- C1 (amended): when the pipeline succeeds, every placeholder variable
the rewriter substitutes into environment values resolves to *at least
one* record of the emitted defaults list, every port placeholder variable
resolves to at least one record (service names being normalize-invariant),
and the image placeholder's releases variable resolves to at least one
record (the unconditionally appended aggregate).  Volume placeholders are
resolved against the separate volume-defaults map, not the record list,
and "exactly one" fails on normalization collisions — see the
counterexample. -/
theorem placeholders_resolve (ctx : Ctx) (fs : PyStr → Option PyStr)
    (model : ComposeModel) (og : OgCompose) (st : BState) (fc : OgCompose)
    (hrun : run_pipeline ctx fs model og = .ok (st, fc))
    (hcov : envCovered model og = true)
    (hnames : inertNames og = true) :
    (∀ name odata env k v, (name, odata) ∈ og.services →
      ogEnvDict (OgService.environment odata) = .ok env → (k, v) ∈ env →
      ∃ r ∈ st.defaults, DefaultRecord.key r = variable_from_env ctx k) ∧
    (∀ name odata pe p, (name, odata) ∈ og.services →
      (pe, p) ∈ (OgService.ports odata).zip
        ((lookupA st.exposed_ports_by_service name).getD []) →
      ∃ r ∈ st.defaults, DefaultRecord.key r = variable_from_port ctx name p true) ∧
    (∃ r ∈ st.defaults, DefaultRecord.key r = variable_from_env ctx releases_key) := by
  unfold run_pipeline at hrun
  cases hws : handle_services ctx fs model og BState.empty with
  | error e =>
    rw [hws, except_error_bind] at hrun
    exact Except.noConfusion hrun
  | ok stw =>
    rw [hws, except_ok_bind] at hrun
    cases hcf : create_final_compose ctx model (add_releases_to_defaults ctx stw) og with
    | error e =>
      rw [hcf, except_error_bind] at hrun
      exact Except.noConfusion hrun
    | ok fc2 =>
      rw [hcf, except_ok_bind] at hrun
      injection hrun with hpair
      injection hpair with h1 h2
      subst h1
      obtain ⟨hsubW, hwfW, hcovW⟩ := handle_services_ok_core ctx fs og model.volumes
        model.services BState.empty stw hws
      have hwf : WF ctx stw := hwfW (WF_empty ctx)
      have hwfR : WF ctx (add_releases_to_defaults ctx stw) := add_releases_WF ctx stw hwf
      refine ⟨?_, ?_, add_releases_mem ctx stw⟩
      · intro name odata env k v hmem heq hkv
        have hcEntry := List.all_eq_true.mp hcov (name, odata) hmem
        simp only at hcEntry
        rw [heq] at hcEntry
        cases hlk : lookupA model.services name with
        | none =>
          rw [hlk] at hcEntry
          have := List.all_eq_true.mp hcEntry (k, v) hkv
          exact absurd this (by simp)
        | some msvc =>
          rw [hlk] at hcEntry
          have hk := List.all_eq_true.mp hcEntry (k, v) hkv
          obtain ⟨kv2, hkv2mem, hkv2eq⟩ := List.any_eq_true.mp hk
          have hkeq : kv2.1 = k := by simpa using hkv2eq
          have hmsvc : (name, msvc) ∈ model.services := lookupA_mem _ _ _ hlk
          have hseen : seenNE stw kv2.1 := hcovW (name, msvc) hmsvc kv2 hkv2mem
          rw [hkeq] at hseen
          have hseenR : seenNE (add_releases_to_defaults ctx stw) k := hseen
          exact hwfR.1 k hseenR
      · intro name odata pe p hmem hzip
        have hp := (List.of_mem_zip hzip).2
        have hp' : p ∈ (lookupA stw.exposed_ports_by_service name).getD [] := hp
        have hseen := hwf.2 name p hp'
        have hseenR : seenNE (add_releases_to_defaults ctx stw)
            (variable_from_port ctx name p false) := hseen
        obtain ⟨r, hr, hkey⟩ := hwfR.1 _ hseenR
        refine ⟨r, hr, ?_⟩
        rw [hkey]
        have hn : ∀ c ∈ name, inertCh c = true := by
          have := List.all_eq_true.mp hnames (name, odata) hmem
          exact fun c hc => List.all_eq_true.mp this c hc
        exact portkey_normalize ctx name p hn

/-- The rewritten descriptor of a pipeline result (empty on error). -/
def pipelineCompose (x : Except String (BState × OgCompose)) : OgCompose :=
  match x with
  | .ok res => res.2
  | .error _ => OgCompose.mk [] none

/-- C1 counterexample canonical service: service `Web` (uppercase) with a
`RELEASES` env var, a bind mount and a published port. -/
def svcCex : Service :=
  { environment := [(pyStr "RELEASES", pyStr "x")],
    volumes := [Mount.mk (pyStr "bind") (pyStr "./data")],
    ports := [PortSpec.mk (some 8080)], image := pyStr "nginx:1.25" }

/-- C1 counterexample canonical model. -/
def modelCex : ComposeModel := { services := [(pyStr "Web", svcCex)], volumes := [] }

/-- C1 counterexample original service. -/
def ogsvcCex : OgService :=
  { environment := OgEnv.dict [(pyStr "RELEASES", pyStr "x")],
    env_file := none, volumes := [pyStr "./data:/data"], ports := [pyStr "8080:80"],
    image := pyStr "nginx:1.25", user := none, networks := none }

/-- C1 counterexample original descriptor. -/
def ogCex : OgCompose := { services := [(pyStr "Web", ogsvcCex)], networks := none }

/-- C1 counterexample: the pipeline succeeds on this input, yet
(a) the rewritten volume entry carries the placeholder variable
`dc_data_mount_dir`, which matches *zero* records of the defaults list;
(b) the rewritten port entry carries `dc_host_port_Web_8080`, which also
matches zero records (the stored record key was normalized to lowercase);
(c) the rewritten image carries the releases variable, which matches *two*
records (the `RELEASES` env record and the aggregate).  So placeholders do
not resolve to exactly one record. -/
theorem placeholder_resolution_cex :
    (run_pipeline ctx0 (fun _ => none) modelCex ogCex).isOk = true ∧
      ((lookupA (pipelineCompose (run_pipeline ctx0 (fun _ => none) modelCex
          ogCex)).services (pyStr "Web")).map OgService.volumes =
        some [mkPlaceholder (pyStr "dc_data_mount_dir") ++ pyStr ":/data"]) ∧
      ((pipelineDefaults (run_pipeline ctx0 (fun _ => none) modelCex ogCex)).filter
          (fun r => r.key == pyStr "dc_data_mount_dir")).length = 0 ∧
      ((lookupA (pipelineCompose (run_pipeline ctx0 (fun _ => none) modelCex
          ogCex)).services (pyStr "Web")).map OgService.ports =
        some [mkPlaceholder (variable_from_port ctx0 (pyStr "Web") 8080 true) ++
          pyStr ":80"]) ∧
      ((pipelineDefaults (run_pipeline ctx0 (fun _ => none) modelCex ogCex)).filter
          (fun r => r.key == variable_from_port ctx0 (pyStr "Web") 8080 true)).length
        = 0 ∧
      ((lookupA (pipelineCompose (run_pipeline ctx0 (fun _ => none) modelCex
          ogCex)).services (pyStr "Web")).map OgService.image =
        some (pyStr "nginx:" ++ releasesPlaceholder ctx0 (pyStr "Web"))) ∧
      ((pipelineDefaults (run_pipeline ctx0 (fun _ => none) modelCex ogCex)).filter
          (fun r => r.key == variable_from_env ctx0 releases_key)).length = 2 := by
  refine ⟨by decide, by decide, by decide, by decide, by decide, by decide, by decide⟩

/-- C1 witness canonical service. -/
def svcWit : Service :=
  { environment := [(pyStr "A", pyStr "1")], volumes := [],
    ports := [PortSpec.mk (some 8080)], image := pyStr "nginx:1.25" }

/-- C1 witness canonical model. -/
def modelWit : ComposeModel := { services := [(pyStr "web", svcWit)], volumes := [] }

/-- C1 witness original service. -/
def ogsvcWit : OgService :=
  { environment := OgEnv.dict [(pyStr "A", pyStr "1")], env_file := none,
    volumes := [], ports := [pyStr "8080:80"], image := pyStr "nginx:1.25",
    user := none, networks := none }

/-- C1 witness original descriptor. -/
def ogWit : OgCompose := { services := [(pyStr "web", ogsvcWit)], networks := none }

/-- The pipeline result pair (defaults state and rewritten descriptor). -/
def pipelineOut (x : Except String (BState × OgCompose)) : BState × OgCompose :=
  match x with
  | .ok res => res
  | .error _ => (BState.empty, OgCompose.mk [] none)

/-- Witness for C1 (amended) at a one-service input: the substituted env,
port and image placeholder variables each match a record. -/
theorem placeholders_resolve_witness :
    (∃ r ∈ (pipelineOut (run_pipeline ctx0 (fun _ => none) modelWit ogWit)).1.defaults,
      DefaultRecord.key r = variable_from_env ctx0 (pyStr "A")) ∧
    (∃ r ∈ (pipelineOut (run_pipeline ctx0 (fun _ => none) modelWit ogWit)).1.defaults,
      DefaultRecord.key r = variable_from_port ctx0 (pyStr "web") 8080 true) ∧
    (∃ r ∈ (pipelineOut (run_pipeline ctx0 (fun _ => none) modelWit ogWit)).1.defaults,
      DefaultRecord.key r = variable_from_env ctx0 releases_key) := by
  have H := placeholders_resolve ctx0 (fun _ => none) modelWit ogWit
    (pipelineOut (run_pipeline ctx0 (fun _ => none) modelWit ogWit)).1
    (pipelineOut (run_pipeline ctx0 (fun _ => none) modelWit ogWit)).2
    (by decide) (by decide) (by decide)
  refine ⟨?_, ?_, H.2.2⟩
  · exact H.1 (pyStr "web") ogsvcWit [(pyStr "A", pyStr "1")] (pyStr "A") (pyStr "1")
      (by decide) (by decide) (by decide)
  · exact H.2.1 (pyStr "web") ogsvcWit (pyStr "8080:80") 8080 (by decide) (by decide)
